import Mathlib

/-!
# netfence: rule validation, the nftables renderer and the rule store

A shallow embedding of `internal/model/rule.go`, `internal/service/rules_service.go`
(`validateRule`, `oneOf`, `Err`, `RulesService.Add`, `RulesService.Delete`),
`internal/service/defaults_service.go`, `internal/service/audit_service.go`,
`internal/repo/rule_repo.go`, `internal/repo/defaults_repo.go`, `internal/repo/audit_repo.go`,
`internal/util/netif.go`, `internal/render/renderer.go`
(`Render`, `renderChain`, `renderRule`) and the import command of `cmd/netfence/main.go`.

Conventions of the embedding.
* Go `string` is `String`; `*string` is `Option String` (`nil` is `none`).
* Go `int` and `int64` are `Int` (no arithmetic is done on ports or ICMP types, only
  comparisons and decimal formatting, so the machine width plays no role).
* Go `error` is `Option GoError` (`nil` is `none`).
* A `strings.Builder` is the `String` written so far; a function taking `*strings.Builder`
  takes that text and returns the text after its writes.
* `for _, x := range xs` with an early `return` is a recursion over the list; a loop
  that only accumulates is a `List.foldl` whose state is the accumulated variable.
* A method on the database takes the content of the tables and returns the content
  afterwards next to its Go results; an oracle says which database operations fail.
-/

namespace Netfence

set_option maxRecDepth 100000

/-! ## Go library pieces the code calls -/

/-- Go error values as this program builds them: `errors.New msg`, and the result of
`fmt.Errorf` with one `%w` verb, which carries its formatted message and the wrapped error. -/
inductive GoError where
  | new (msg : String)
  | wrap (msg : String) (inner : GoError)
deriving DecidableEq, Repr

/-- The `Error()` method: the message of an error. -/
def GoError.Error : GoError → String
  | .new m => m
  | .wrap m _ => m

/-- The function `errors.Is err target`: `target` occurs in the `Unwrap` chain of `err`. -/
def GoError.Is : GoError → GoError → Bool
  | .new m, t => decide (GoError.new m = t)
  | .wrap m inner, t => decide (GoError.wrap m inner = t) || inner.Is t

/-- The call `fmt.Errorf("%w: %s", e, s)`. -/
def Errorf_w_s (e : GoError) (s : String) : GoError :=
  .wrap (e.Error ++ ": " ++ s) e

/-- The function `strings.Join elems sep`. -/
def Join : List String → String → String
  | [], _ => ""
  | [a], _ => a
  | a :: b :: rest, sep => a ++ sep ++ Join (b :: rest) sep

/-- The verb `%d` of `fmt.Sprintf` on an `int`: decimal digits, with a leading `-` for a
negative value. -/
def fmtD (n : Int) : String :=
  match n with
  | Int.ofNat m => Nat.repr m
  | Int.negSucc m => "-" ++ Nat.repr (m + 1)

/-- The predicate `unicode.IsSpace`: the Latin-1 spaces and the code points of category Z
and property Pattern_White_Space. -/
def isSpace (c : Char) : Bool :=
  c = '\t' || c = '\n' || c.val = 0x0B || c.val = 0x0C || c = '\r' || c = ' ' ||
  c.val = 0x85 || c.val = 0xA0 || c.val = 0x1680 ||
  (0x2000 ≤ c.val && c.val ≤ 0x200A) ||
  c.val = 0x2028 || c.val = 0x2029 || c.val = 0x202F || c.val = 0x205F || c.val = 0x3000

/-- The function `strings.TrimSpace`: the string without its leading and trailing white space. -/
def TrimSpace (s : String) : String :=
  String.mk (((s.data.dropWhile isSpace).reverse.dropWhile isSpace).reverse)

/-! ## internal/model -/

/-- The struct `model.Rule`. -/
structure Rule where
  ID : Int
  Chain : String
  Proto : String
  Action : String
  InIf : Option String
  OutIf : Option String
  Ports : List Int
  SrcCIDRs : List String
  DstCIDRs : List String
  ICMPTypes : List Int
  Comment : Option String
  Enabled : Bool
deriving DecidableEq, Repr

/-- Modelled from the spec: the declaration of the struct `model.Defaults` is not among the
sources. The spec gives it an input, a forward and an output policy and a log-prefix string,
and the callers (`DefaultsRepo.Get`, the tests) use exactly these four string fields. -/
structure Defaults where
  InputPolicy : String
  ForwardPolicy : String
  OutputPolicy : String
  LogPrefix : String
deriving DecidableEq, Repr

/-! ## internal/service/rules_service.go -/

/-- The sentinel `ErrInvalid = errors.New("invalid rule")`. -/
def ErrInvalid : GoError := .new "invalid rule"

/-- The function `oneOf`: `v` equals one of `xs`. -/
def oneOf (v : String) : List String → Bool
  | [] => false
  | x :: xs => if v = x then true else oneOf v xs

/-- The function `Err field`: `fmt.Errorf("%w: %s", ErrInvalid, field)`. -/
def Err (field : String) : GoError := Errorf_w_s ErrInvalid field

/-- The loop `for _, p := range r.Ports { if p<=0 || p>65535 { return Err("port") } }`:
`some e` when the loop returns `e`, `none` when it runs to its end. -/
def portsLoop : List Int → Option GoError
  | [] => none
  | p :: ps => if p ≤ 0 ∨ p > 65535 then some (Err "port") else portsLoop ps

/-- The loops over `r.SrcCIDRs` and `r.DstCIDRs`, returning `Err(field)` at the first
entry `net.ParseCIDR` rejects. `ParseCIDR c = true` stands for a nil error. -/
def cidrLoop (ParseCIDR : String → Bool) (field : String) : List String → Option GoError
  | [] => none
  | c :: cs => if ParseCIDR c = false then some (Err field) else cidrLoop ParseCIDR field cs

/-- The loop `for _, t := range r.ICMPTypes { if t<0 || t>255 { return Err("icmp_type") } }`. -/
def icmpLoop : List Int → Option GoError
  | [] => none
  | t :: ts => if t < 0 ∨ t > 255 then some (Err "icmp_type") else icmpLoop ts

/-- The test `p != nil && strings.TrimSpace(*p) == ""` on an optional interface name. -/
def blankIf : Option String → Bool
  | some s => decide (TrimSpace s = "")
  | none => false

/-- The function `validateRule`. The library function `net.ParseCIDR` is a parameter:
`ParseCIDR c = true` when it returns a nil error on `c`. -/
def validateRule (ParseCIDR : String → Bool) (r : Rule) : Option GoError :=
  if !oneOf r.Chain ["input", "forward", "output"] then some (Err "chain") else
  if !oneOf r.Proto ["all", "tcp", "udp", "icmp"] then some (Err "proto") else
  if !oneOf r.Action ["accept", "drop"] then some (Err "action") else
  match portsLoop r.Ports with
  | some e => some e
  | none =>
  match cidrLoop ParseCIDR "src_cidr" r.SrcCIDRs with
  | some e => some e
  | none =>
  match cidrLoop ParseCIDR "dst_cidr" r.DstCIDRs with
  | some e => some e
  | none =>
  match icmpLoop r.ICMPTypes with
  | some e => some e
  | none =>
  if blankIf r.InIf then some (Err "in_if") else
  if blankIf r.OutIf then some (Err "out_if") else
  none

/-! ## internal/render/renderer.go -/

/-- The slice `parts` of `renderRule` as it stands right before the final `strings.Join`:
every `append` of the source, in source order. -/
def renderParts (r : Rule) : List String :=
  let parts : List String := []
  let parts := match r.InIf with
    | some s => parts ++ ["iifname \"" ++ s ++ "\""]
    | none => parts
  let parts := match r.OutIf with
    | some s => parts ++ ["oifname \"" ++ s ++ "\""]
    | none => parts
  let parts :=
    if r.Proto ≠ "all" then
      if r.Proto = "tcp" ∨ r.Proto = "udp" then parts ++ ["ip protocol " ++ r.Proto]
      else if r.Proto = "icmp" then parts ++ ["ip protocol icmp"]
      else parts
    else parts
  let parts :=
    if r.Ports.length > 0 ∧ (r.Proto = "tcp" ∨ r.Proto = "udp") then
      let s := r.Ports.foldl (fun s p => s ++ [fmtD p]) ([] : List String)
      parts ++ [r.Proto ++ " dport \x7b " ++ Join s "," ++ " \x7d"]
    else parts
  let parts := r.SrcCIDRs.foldl (fun parts cidr => parts ++ ["ip saddr " ++ cidr]) parts
  let parts := r.DstCIDRs.foldl (fun parts cidr => parts ++ ["ip daddr " ++ cidr]) parts
  let parts :=
    if r.ICMPTypes.length > 0 ∧ r.Proto = "icmp" then
      let s := r.ICMPTypes.foldl (fun s t => s ++ [fmtD t]) ([] : List String)
      parts ++ ["icmp type \x7b " ++ Join s "," ++ " \x7d"]
    else parts
  parts ++ [r.Action]

/-- The function `renderRule`: the clauses joined with single spaces. -/
def renderRule (r : Rule) : String :=
  Join (renderParts r) " "

/-- The body of the loop of `renderChain` for one rule: the builder after the iteration. -/
def renderChainStep (name : String) (b : String) (r : Rule) : String :=
  if r.Chain ≠ name ∨ r.Enabled = false then b
  else
    let line := renderRule r
    if line ≠ "" then b ++ ("    " ++ line ++ "\n") else b

/-- The function `renderChain`, on the text `b` of the builder. -/
def renderChain (b : String) (name policy : String) (rules : List Rule) : String :=
  let b := b ++ ("  chain " ++ name ++ " \x7b\n")
  let b := b ++ ("    type filter hook " ++ name ++ " priority 0; policy " ++ policy ++ ";\n")
  let b := b ++ "    ct state established,related accept\n"
  let b := rules.foldl (renderChainStep name) b
  b ++ "  \x7d\n\n"

/-- The function `Render`. -/
def Render (d : Defaults) (rules : List Rule) : String :=
  let b := ""
  let b := b ++ "flush ruleset\n\n"
  let b := b ++ "table inet netfence \x7b\n"
  let b := renderChain b "input" d.InputPolicy rules
  let b := renderChain b "forward" d.ForwardPolicy rules
  let b := renderChain b "output" d.OutputPolicy rules
  b ++ "\x7d\n"

/-- The rule of the tests: input, tcp, accept, ports `[22]`, enabled. -/
def sshRule : Rule :=
  { ID := 0, Chain := "input", Proto := "tcp", Action := "accept", InIf := none,
    OutIf := none, Ports := [22], SrcCIDRs := [], DstCIDRs := [], ICMPTypes := [],
    Comment := none, Enabled := true }


/-! ## The clause grammar of the specification -/

/-- The inbound-interface clause: present when an inbound interface is set. -/
def specInIf (r : Rule) : List String :=
  match r.InIf with
  | some s => ["iifname \"" ++ s ++ "\""]
  | none => []

/-- The outbound-interface clause: present when an outbound interface is set. -/
def specOutIf (r : Rule) : List String :=
  match r.OutIf with
  | some s => ["oifname \"" ++ s ++ "\""]
  | none => []

/-- The protocol clause: present when the protocol is tcp, udp or icmp. -/
def specProto (r : Rule) : List String :=
  if r.Proto = "tcp" ∨ r.Proto = "udp" ∨ r.Proto = "icmp" then ["ip protocol " ++ r.Proto]
  else []

/-- The port clause: present when the port list is non-empty and the protocol is tcp or udp;
the ports are comma-joined decimals in list order. -/
def specPorts (r : Rule) : List String :=
  if r.Ports ≠ [] ∧ (r.Proto = "tcp" ∨ r.Proto = "udp") then
    [r.Proto ++ " dport \x7b " ++ Join (r.Ports.map fmtD) "," ++ " \x7d"]
  else []

/-- One source-prefix clause per entry of the source list, in list order. -/
def specSaddr (r : Rule) : List String :=
  r.SrcCIDRs.map (fun cidr => "ip saddr " ++ cidr)

/-- One destination-prefix clause per entry of the destination list, in list order. -/
def specDaddr (r : Rule) : List String :=
  r.DstCIDRs.map (fun cidr => "ip daddr " ++ cidr)

/-- The ICMP-type clause: present when the type list is non-empty and the protocol is icmp. -/
def specIcmp (r : Rule) : List String :=
  if r.ICMPTypes ≠ [] ∧ r.Proto = "icmp" then
    ["icmp type \x7b " ++ Join (r.ICMPTypes.map fmtD) "," ++ " \x7d"]
  else []

/-- The match clauses of a rule in the order of the specification, the action excluded. -/
def specMatches (r : Rule) : List String :=
  specInIf r ++ specOutIf r ++ specProto r ++ specPorts r ++ specSaddr r ++ specDaddr r ++
    specIcmp r

/-- The text `sub` occurs in `s` (the test `strings.Contains s sub`). -/
def Contains (s sub : String) : Prop := sub.data <:+: s.data

instance (s sub : String) : Decidable (Contains s sub) := by
  unfold Contains; infer_instance

/-- The text `s` ends with `suffix` (the test `strings.HasSuffix`). -/
def EndsWith (s suf : String) : Prop := suf.data <:+ s.data

instance (s suf : String) : Decidable (EndsWith s suf) := by
  unfold EndsWith; infer_instance

/-- The text the loop of `renderChain` writes for the chain `c`: the builder after the
loop over `rules`, started on an empty builder. -/
def ruleLines (c : String) (rules : List Rule) : String :=
  rules.foldl (renderChainStep c) ""

/-- The statement line of a rule inside a chain block: four spaces, the compiled
statement, a line break. -/
def stmtLine (r : Rule) : String := "    " ++ renderRule r ++ "\n"

/-- The concatenation of a list of lines. -/
def concatLines : List String → String
  | [] => ""
  | l :: ls => l ++ concatLines ls

/-- The block of chain `c` with policy `policy` of the script grammar: the opening line, the
hook and policy declaration, the established/related accept statement, the rule statement
lines `body`, the closing line. -/
def specChainBlock (c policy body : String) : String :=
  "  chain " ++ c ++ " \x7b\n" ++
  "    type filter hook " ++ c ++ " priority 0; policy " ++ policy ++ ";\n" ++
  "    ct state established,related accept\n" ++
  body ++
  "  \x7d\n\n"

/-- The script of the grammar: the flush directive, a blank line, the table opening, the
three chain blocks in the order input, forward, output with the given rule lines, the
table closing. -/
def specScript (d : Defaults) (inputLines forwardLines outputLines : String) : String :=
  "flush ruleset\n" ++ "\n" ++ "table inet netfence \x7b\n" ++
  specChainBlock "input" d.InputPolicy inputLines ++
  specChainBlock "forward" d.ForwardPolicy forwardLines ++
  specChainBlock "output" d.OutputPolicy outputLines ++
  "\x7d\n"

/-- An enabled input rule with protocol `all`, no match field and an empty action. -/
def blankRule : Rule :=
  { ID := 1, Chain := "input", Proto := "all", Action := "", InIf := none,
    OutIf := none, Ports := [], SrcCIDRs := [], DstCIDRs := [], ICMPTypes := [],
    Comment := none, Enabled := true }

/-- The defaults of the tests: drop, drop, accept, empty log prefix. -/
def testDefaults : Defaults :=
  { InputPolicy := "drop", ForwardPolicy := "drop", OutputPolicy := "accept", LogPrefix := "" }

/-- The rule statement lines of chain `c` when every enabled rule of `c` gets its line: one
statement line per rule that is enabled and belongs to `c`, in list order. -/
def allRuleLines (c : String) (rules : List Rule) : String :=
  concatLines ((rules.filter (fun r => decide (r.Enabled = true ∧ r.Chain = c))).map stmtLine)

/-- The field named by the first violated check of the validator in the priority order of
the specification: chain, proto, action, port, src_cidr, dst_cidr, icmp_type, in_if, out_if;
`none` when no check is violated. -/
def specFirstViolation (ParseCIDR : String → Bool) (r : Rule) : Option String :=
  if r.Chain ∉ ["input", "forward", "output"] then some "chain"
  else if r.Proto ∉ ["all", "tcp", "udp", "icmp"] then some "proto"
  else if r.Action ∉ ["accept", "drop"] then some "action"
  else if ∃ p ∈ r.Ports, ¬ (1 ≤ p ∧ p ≤ 65535) then some "port"
  else if ∃ c ∈ r.SrcCIDRs, ParseCIDR c = false then some "src_cidr"
  else if ∃ c ∈ r.DstCIDRs, ParseCIDR c = false then some "dst_cidr"
  else if ∃ t ∈ r.ICMPTypes, ¬ (0 ≤ t ∧ t ≤ 255) then some "icmp_type"
  else if ∃ s, r.InIf = some s ∧ TrimSpace s = "" then some "in_if"
  else if ∃ s, r.OutIf = some s ∧ TrimSpace s = "" then some "out_if"
  else none

/-- A stand-in for `net.ParseCIDR` on the inputs of the examples: it accepts the two
networks `10.0.0.0/8` and `192.168.0.0/16`, which the library function parses, and rejects
`nonsense`, which it does not. -/
def sampleParseCIDR (c : String) : Bool :=
  c = "10.0.0.0/8" || c = "192.168.0.0/16"

/-- The rule of the tests with the chain `lan`, which is none of input, forward, output. -/
def lanRule : Rule :=
  { ID := 0, Chain := "lan", Proto := "tcp", Action := "accept", InIf := none,
    OutIf := none, Ports := [22], SrcCIDRs := [], DstCIDRs := [], ICMPTypes := [],
    Comment := none, Enabled := true }

/-- An icmp rule that stores a port: the port must not be rendered. -/
def icmpWithPortRule : Rule :=
  { ID := 2, Chain := "input", Proto := "icmp", Action := "accept", InIf := none,
    OutIf := none, Ports := [53], SrcCIDRs := [], DstCIDRs := [], ICMPTypes := [8],
    Comment := none, Enabled := true }

/-- A tcp rule that stores an ICMP type: the type must not be rendered. -/
def tcpWithIcmpRule : Rule :=
  { ID := 3, Chain := "input", Proto := "tcp", Action := "accept", InIf := none,
    OutIf := none, Ports := [22], SrcCIDRs := [], DstCIDRs := [], ICMPTypes := [8],
    Comment := none, Enabled := true }

/-- A rule with two distinct source prefixes and one destination prefix. -/
def twoSrcRule : Rule :=
  { ID := 4, Chain := "forward", Proto := "all", Action := "drop", InIf := none,
    OutIf := none, Ports := [], SrcCIDRs := ["10.0.0.0/8", "192.168.0.0/16"],
    DstCIDRs := ["10.0.0.0/8"], ICMPTypes := [], Comment := none, Enabled := true }

/-- A rule with protocol `all` that stores ports and has both interfaces set. -/
def allWithPortsRule : Rule :=
  { ID := 5, Chain := "output", Proto := "all", Action := "accept", InIf := some "eth0",
    OutIf := some "eth1", Ports := [80, 443], SrcCIDRs := ["10.0.0.0/8"], DstCIDRs := [],
    ICMPTypes := [], Comment := none, Enabled := true }

/-- The rule of `TestRenderBasic`: input, tcp, accept, ports `[22]`, source `0.0.0.0/0`,
enabled. -/
def basicTestRule : Rule :=
  { ID := 0, Chain := "input", Proto := "tcp", Action := "accept", InIf := none,
    OutIf := none, Ports := [22], SrcCIDRs := ["0.0.0.0/0"], DstCIDRs := [], ICMPTypes := [],
    Comment := none, Enabled := true }

/-- The defaults of `TestDryRunRender`: drop, drop, accept, log prefix `[netfence]`. -/
def dryRunDefaults : Defaults :=
  { InputPolicy := "drop", ForwardPolicy := "drop", OutputPolicy := "accept",
    LogPrefix := "[netfence]" }

/-- The rule `TestDryRunRender` reads back from the store: the rule of the tests with the
identifier 1. -/
def dryRunRule : Rule :=
  { ID := 1, Chain := "input", Proto := "tcp", Action := "accept", InIf := none,
    OutIf := none, Ports := [22], SrcCIDRs := [], DstCIDRs := [], ICMPTypes := [],
    Comment := none, Enabled := true }

/-- An enabled input rule with the identifier 2. -/
def secondRule : Rule :=
  { ID := 2, Chain := "input", Proto := "udp", Action := "drop", InIf := none,
    OutIf := none, Ports := [53], SrcCIDRs := [], DstCIDRs := [], ICMPTypes := [],
    Comment := none, Enabled := true }

/-- The rules of `rules` whose statement lines the block of chain `c` holds: the enabled
rules of chain `c` with a non-empty compiled statement, in the order of `rules`. -/
def chainRules (c : String) (rules : List Rule) : List Rule :=
  rules.filter (fun r => decide (r.Enabled = true ∧ r.Chain = c ∧ renderRule r ≠ ""))

/-- The text `s` holds no line-break character (line feed or carriage return). -/
def noLineBreak (s : String) : Bool :=
  s.data.all (fun c => c != '\n' && c != '\r')

/-- An input rule accepted by the validator whose inbound interface name holds a line feed. -/
def lineBreakIfRule : Rule :=
  { ID := 6, Chain := "input", Proto := "all", Action := "accept",
    InIf := some "eth0\neth1", OutIf := none, Ports := [], SrcCIDRs := [], DstCIDRs := [],
    ICMPTypes := [], Comment := none, Enabled := true }

/-! ## The store

The tables are those `dbApplyAll` of `internal/tui/tui.go` and the tests create (the
migration files of `internal/db` are not among the sources):
`rules(id INTEGER PRIMARY KEY, chain, proto, action, in_if, out_if, comment, enabled)`,
the four child tables `rule_port(rule_id, port)`, `rule_src_cidr(rule_id, cidr)`,
`rule_dst_cidr(rule_id, cidr)`, `rule_icmp_type(rule_id, itype)` without key or constraint,
`defaults(id INTEGER PRIMARY KEY, input_policy, forward_policy, output_policy, log_prefix)`
and `audit_log(actor, action, object, details)`.

A table is the list of its rows in insertion order. SQLite semantics used:
* an insert into `rules` without an `id` gets the largest `id` in the table plus one, and 1 in
  an empty table (`INTEGER PRIMARY KEY` without `AUTOINCREMENT`);
* a select without `ORDER BY` on a table without index returns the rows in insertion order;
* what a transaction writes becomes visible when it commits, and never when it is rolled back.

Every database operation may fail: `fails op = some e` says that the operation `op` returns
the error `e` and changes nothing. -/

/-- The child tables with an integer value column. -/
inductive IntTable where
  | rule_port
  | rule_icmp_type
deriving DecidableEq, Repr

/-- The child tables with a text value column. -/
inductive StrTable where
  | rule_src_cidr
  | rule_dst_cidr
deriving DecidableEq, Repr

/-- The database operations the repositories issue. `execInts t i` is the insert of the
entry with index `i` of the list given to `insertInts`; `scanRule id` is the scan of the row
with identifier `id` in `List`; `selectInts t id` is the whole query of `selectInts`;
`deleteAllRules` is the statement `DELETE FROM rules` of the import. -/
inductive DbOp where
  | beginTx
  | insertRule
  | lastInsertId
  | prepareInts (t : IntTable)
  | execInts (t : IntTable) (i : Nat)
  | prepareStrs (t : StrTable)
  | execStrs (t : StrTable) (i : Nat)
  | commit
  | deleteRule
  | queryRules
  | scanRule (id : Int)
  | selectInts (t : IntTable) (id : Int)
  | selectStrs (t : StrTable) (id : Int)
  | getDefaults
  | setDefaults
  | auditWrite
  | deleteAllRules
deriving DecidableEq, Repr

/-- A row of the table `rules`; a `NULL` in a text column is `none`. -/
structure RuleRow where
  id : Int
  chain : String
  proto : String
  action : String
  in_if : Option String
  out_if : Option String
  comment : Option String
  enabled : Int
deriving DecidableEq, Repr

/-- A row of the table `defaults`: its `id` and the four columns `input_policy`,
`forward_policy`, `output_policy`, `log_prefix` as the fields of a `Defaults`. -/
structure DefaultsRow where
  id : Int
  cols : Defaults
deriving DecidableEq, Repr

/-- A row of the table `audit_log`. -/
structure AuditRow where
  actor : String
  action : String
  object : String
  details : String
deriving DecidableEq, Repr

/-- The content of the database. -/
structure Tables where
  rules : List RuleRow
  rule_port : List (Int × Int)
  rule_src_cidr : List (Int × String)
  rule_dst_cidr : List (Int × String)
  rule_icmp_type : List (Int × Int)
  defaults : List DefaultsRow
  audit_log : List AuditRow
deriving DecidableEq, Repr

/-- The rows of an integer child table. -/
def Tables.ints (db : Tables) : IntTable → List (Int × Int)
  | .rule_port => db.rule_port
  | .rule_icmp_type => db.rule_icmp_type

/-- The rows of a text child table. -/
def Tables.strs (db : Tables) : StrTable → List (Int × String)
  | .rule_src_cidr => db.rule_src_cidr
  | .rule_dst_cidr => db.rule_dst_cidr

/-- The statement `INSERT INTO t(rule_id, value) VALUES(id, v)` on an integer child table. -/
def Tables.insertInt (db : Tables) (t : IntTable) (id v : Int) : Tables :=
  match t with
  | .rule_port => { db with rule_port := db.rule_port ++ [(id, v)] }
  | .rule_icmp_type => { db with rule_icmp_type := db.rule_icmp_type ++ [(id, v)] }

/-- The statement `INSERT INTO t(rule_id, cidr) VALUES(id, v)` on a text child table. -/
def Tables.insertStr (db : Tables) (t : StrTable) (id : Int) (v : String) : Tables :=
  match t with
  | .rule_src_cidr => { db with rule_src_cidr := db.rule_src_cidr ++ [(id, v)] }
  | .rule_dst_cidr => { db with rule_dst_cidr := db.rule_dst_cidr ++ [(id, v)] }

/-- The largest `id` of the table `rules`, `none` for the empty table. -/
def maxId : List RuleRow → Option Int
  | [] => none
  | r :: rs =>
    match maxId rs with
    | none => some r.id
    | some m => some (max r.id m)

/-- The `id` SQLite gives a row inserted into `rules` without one: the largest `id` plus
one, and 1 in the empty table. (The case of the largest 64-bit `id` is left out.) -/
def nextRowid (rows : List RuleRow) : Int :=
  match maxId rows with
  | none => 1
  | some m => m + 1

/-- A transaction of `database/sql`: `base` is the committed content, which the other
connections see, `work` the content as the transaction sees it, `active` is false once the
transaction is committed or rolled back. -/
structure Tx where
  base : Tables
  work : Tables
  active : Bool
deriving DecidableEq, Repr

/-- The transaction `BeginTx` opens on the content `db`. -/
def Tx.start (db : Tables) : Tx := { base := db, work := db, active := true }

/-- The method `tx.Rollback`: an active transaction drops its writes; on a finished
transaction it does nothing (it returns `ErrTxDone`). -/
def Tx.Rollback (tx : Tx) : Tx :=
  if tx.active then { base := tx.base, work := tx.base, active := false } else tx

/-- The method `tx.Commit`: the writes of the transaction become the committed content; a
commit that fails publishes nothing. The transaction is finished in both cases. -/
def Tx.Commit (fails : DbOp → Option GoError) (tx : Tx) : Tx × Option GoError :=
  match fails .commit with
  | some e => ({ base := tx.base, work := tx.base, active := false }, some e)
  | none => ({ base := tx.work, work := tx.work, active := false }, none)

/-- The oracle of a database on which no operation fails. -/
def noFault : DbOp → Option GoError := fun _ => none

/-- The empty database with the defaults row `dbApplyAll` inserts. -/
def freshTables : Tables :=
  { rules := [], rule_port := [], rule_src_cidr := [], rule_dst_cidr := [],
    rule_icmp_type := [],
    defaults := [{ id := 1, cols := testDefaults }],
    audit_log := [] }

/-! ## internal/repo/rule_repo.go -/

/-- The function `nullable`: `nil` for a nil pointer, the text otherwise. -/
def nullable (p : Option String) : Option String := p

/-- The function `boolToInt`. -/
def boolToInt (b : Bool) : Int := if b then 1 else 0

/-- The statement `INSERT INTO rules(chain,proto,action,in_if,out_if,comment,enabled)
VALUES(...)` for the rule `m`, whose row gets the identifier `id`. -/
def Tables.insertRule (db : Tables) (id : Int) (m : Rule) : Tables :=
  { db with rules := db.rules ++
    [{ id := id, chain := m.Chain, proto := m.Proto, action := m.Action,
       in_if := nullable m.InIf, out_if := nullable m.OutIf, comment := nullable m.Comment,
       enabled := boolToInt m.Enabled }] }

/-- The loop of `insertInts` from the entry with index `i` on. -/
def insertIntsLoop (fails : DbOp → Option GoError) (t : IntTable) (id : Int) :
    Tx → List Int → Nat → Tx × Option GoError
  | tx, [], _ => (tx, none)
  | tx, v :: vs, i =>
    match fails (.execInts t i) with
    | some e => (tx, some e)
    | none =>
      insertIntsLoop fails t id { tx with work := tx.work.insertInt t id v } vs (i + 1)

/-- The function `insertInts`; the query text is given by the table it inserts into. -/
def insertInts (fails : DbOp → Option GoError) (tx : Tx) (t : IntTable) (id : Int)
    (xs : List Int) : Tx × Option GoError :=
  if xs.length = 0 then (tx, none) else
  match fails (.prepareInts t) with
  | some e => (tx, some e)
  | none => insertIntsLoop fails t id tx xs 0

/-- The loop of `insertStrs` from the entry with index `i` on. -/
def insertStrsLoop (fails : DbOp → Option GoError) (t : StrTable) (id : Int) :
    Tx → List String → Nat → Tx × Option GoError
  | tx, [], _ => (tx, none)
  | tx, v :: vs, i =>
    match fails (.execStrs t i) with
    | some e => (tx, some e)
    | none =>
      insertStrsLoop fails t id { tx with work := tx.work.insertStr t id v } vs (i + 1)

/-- The function `insertStrs`; the query text is given by the table it inserts into. -/
def insertStrs (fails : DbOp → Option GoError) (tx : Tx) (t : StrTable) (id : Int)
    (xs : List String) : Tx × Option GoError :=
  if xs.length = 0 then (tx, none) else
  match fails (.prepareStrs t) with
  | some e => (tx, some e)
  | none => insertStrsLoop fails t id tx xs 0

/-- The body of `RuleRepo.Create` after `BeginTx`, up to its `return`: the transaction, the
returned identifier and the final value of the variable `err`, which is the returned error. -/
def RuleRepo.createBody (fails : DbOp → Option GoError) (tx : Tx) (m : Rule) :
    Tx × Int × Option GoError :=
  match fails .insertRule with
  | some e => (tx, 0, some e)
  | none =>
  let id := nextRowid tx.work.rules
  let tx := { tx with work := tx.work.insertRule id m }
  match fails .lastInsertId with
  | some e => (tx, 0, some e)
  | none =>
  match insertInts fails tx .rule_port id m.Ports with
  | (tx, some e) => (tx, 0, some e)
  | (tx, none) =>
  match insertStrs fails tx .rule_src_cidr id m.SrcCIDRs with
  | (tx, some e) => (tx, 0, some e)
  | (tx, none) =>
  match insertStrs fails tx .rule_dst_cidr id m.DstCIDRs with
  | (tx, some e) => (tx, 0, some e)
  | (tx, none) =>
  match insertInts fails tx .rule_icmp_type id m.ICMPTypes with
  | (tx, some e) => (tx, 0, some e)
  | (tx, none) =>
  match tx.Commit fails with
  | (tx, some e) => (tx, 0, some e)
  | (tx, none) => (tx, id, none)

/-- The method `RuleRepo.Create`: the committed content afterwards, the identifier and the
error. The deferred function rolls the transaction back when `err` is not nil. -/
def RuleRepo.Create (fails : DbOp → Option GoError) (db : Tables) (m : Rule) :
    Tables × Int × Option GoError :=
  match fails .beginTx with
  | some e => (db, 0, some e)
  | none =>
    match RuleRepo.createBody fails (Tx.start db) m with
    | (tx, id, err) =>
      let tx := if err ≠ none then tx.Rollback else tx
      (tx.base, id, err)

/-- The method `RuleRepo.Delete`: `DELETE FROM rules WHERE id=?`. -/
def RuleRepo.Delete (fails : DbOp → Option GoError) (db : Tables) (id : Int) :
    Tables × Option GoError :=
  match fails .deleteRule with
  | some e => (db, some e)
  | none => ({ db with rules := db.rules.filter (fun row => row.id ≠ id) }, none)

/-- The function `selectInts`: the values of the rows of `t` with `rule_id = id`, in table
order. -/
def selectInts (fails : DbOp → Option GoError) (db : Tables) (t : IntTable) (id : Int) :
    List Int × Option GoError :=
  match fails (.selectInts t id) with
  | some e => ([], some e)
  | none => (((db.ints t).filter (fun row => row.1 = id)).map (fun row => row.2), none)

/-- The function `selectStrs`: the values of the rows of `t` with `rule_id = id`, in table
order. -/
def selectStrs (fails : DbOp → Option GoError) (db : Tables) (t : StrTable) (id : Int) :
    List String × Option GoError :=
  match fails (.selectStrs t id) with
  | some e => ([], some e)
  | none => (((db.strs t).filter (fun row => row.1 = id)).map (fun row => row.2), none)

/-- The rule `List` builds from a scanned row: the columns of the row, and the four lists
read by `selectInts` and `selectStrs`, whose errors are dropped. -/
def RuleRepo.hydrate (fails : DbOp → Option GoError) (db : Tables) (row : RuleRow) : Rule :=
  { ID := row.id, Chain := row.chain, Proto := row.proto, Action := row.action,
    InIf := row.in_if, OutIf := row.out_if, Comment := row.comment,
    Enabled := decide (row.enabled = 1),
    Ports := (selectInts fails db .rule_port row.id).1,
    SrcCIDRs := (selectStrs fails db .rule_src_cidr row.id).1,
    DstCIDRs := (selectStrs fails db .rule_dst_cidr row.id).1,
    ICMPTypes := (selectInts fails db .rule_icmp_type row.id).1 }

/-- The loop `for rows.Next()` of `List` over the rows of the result, with the slice `out`. -/
def RuleRepo.listLoop (fails : DbOp → Option GoError) (db : Tables) :
    List RuleRow → List Rule → List Rule × Option GoError
  | [], out => (out, none)
  | row :: rows, out =>
    match fails (.scanRule row.id) with
    | some e => ([], some e)
    | none => RuleRepo.listLoop fails db rows (out ++ [RuleRepo.hydrate fails db row])

/-- The order `ORDER BY id` compares with is total. -/
instance idLe_isTotal : IsTotal RuleRow (fun a b : RuleRow => a.id ≤ b.id) :=
  ⟨fun a b => le_total a.id b.id⟩

/-- The order `ORDER BY id` compares with is transitive. -/
instance idLe_isTrans : IsTrans RuleRow (fun a b : RuleRow => a.id ≤ b.id) :=
  ⟨fun _ _ _ hab hbc => le_trans hab hbc⟩

/-- The rows of the query of `List`: all rows, or those with `enabled=1`, `ORDER BY id`. -/
def RuleRepo.listQuery (db : Tables) (onlyEnabled : Bool) : List RuleRow :=
  List.insertionSort (fun a b : RuleRow => a.id ≤ b.id)
    (if onlyEnabled then db.rules.filter (fun row => row.enabled = 1) else db.rules)

/-- The method `RuleRepo.List`. -/
def RuleRepo.List (fails : DbOp → Option GoError) (db : Tables) (onlyEnabled : Bool) :
    List Rule × Option GoError :=
  match fails .queryRules with
  | some e => ([], some e)
  | none => RuleRepo.listLoop fails db (RuleRepo.listQuery db onlyEnabled) []

/-! ## internal/repo/defaults_repo.go, internal/repo/audit_repo.go -/

/-- The error `sql.ErrNoRows` that `Scan` returns when the query has no row. -/
def ErrNoRows : GoError := .new "sql: no rows in result set"

/-- The zero value of `model.Defaults`. -/
def zeroDefaults : Defaults :=
  { InputPolicy := "", ForwardPolicy := "", OutputPolicy := "", LogPrefix := "" }

/-- The method `DefaultsRepo.Get`: the columns of the row with `id=1`. -/
def DefaultsRepo.Get (fails : DbOp → Option GoError) (db : Tables) :
    Defaults × Option GoError :=
  match fails .getDefaults with
  | some e => (zeroDefaults, some e)
  | none =>
    match db.defaults.find? (fun row => decide (row.id = 1)) with
    | some row => (row.cols, none)
    | none => (zeroDefaults, some ErrNoRows)

/-- The method `DefaultsRepo.Set`: `UPDATE defaults SET ... WHERE id=1`. -/
def DefaultsRepo.Set (fails : DbOp → Option GoError) (db : Tables) (d : Defaults) :
    Tables × Option GoError :=
  match fails .setDefaults with
  | some e => (db, some e)
  | none =>
    ({ db with defaults :=
        db.defaults.map (fun row => if row.id = 1 then { row with cols := d } else row) },
      none)

/-- The method `AuditRepo.Write`: one insert into `audit_log`. -/
def AuditRepo.Write (fails : DbOp → Option GoError) (db : Tables)
    (actor action object details : String) : Tables × Option GoError :=
  match fails .auditWrite with
  | some e => (db, some e)
  | none =>
    ({ db with audit_log := db.audit_log ++
        [{ actor := actor, action := action, object := object, details := details }] },
      none)

/-! ## internal/util/netif.go, internal/service -/

/-- The library functions the services call, and the fault oracle of the database:
`net.ParseCIDR` (true for a nil error), `netlink.LinkByName` (its error), the verb `%q` of
`fmt` and `json.Marshal` on a rule. -/
structure Env where
  ParseCIDR : String → Bool
  LinkByName : String → Option GoError
  Quote : String → String
  Marshal : Rule → String
  fails : DbOp → Option GoError

/-- The function `util.IfExists`. -/
def IfExists (env : Env) (name : String) : Option GoError :=
  if name = "" then none else
  match env.LinkByName name with
  | some err => some (.wrap ("interface " ++ env.Quote name ++ " not found: " ++ err.Error) err)
  | none => none

/-- The method `AuditService.Log`; `details` is the rule given as details, `none` for nil. -/
def AuditService.Log (env : Env) (db : Tables) (actor action object : String)
    (details : Option Rule) : Tables × Option GoError :=
  let dstr := match details with
    | some r => env.Marshal r
    | none => "\x7b\x7d"
  AuditRepo.Write env.fails db actor action object dstr

/-- The method `RulesService.Add`: the committed content afterwards, the identifier and the
error. -/
def RulesService.Add (env : Env) (db : Tables) (actor : String) (r : Rule) :
    Tables × Int × Option GoError :=
  match validateRule env.ParseCIDR r with
  | some err => (db, 0, some err)
  | none =>
  match (match r.InIf with
    | some s => IfExists env s
    | none => none) with
  | some err => (db, 0, some err)
  | none =>
  match (match r.OutIf with
    | some s => IfExists env s
    | none => none) with
  | some err => (db, 0, some err)
  | none =>
    match RuleRepo.Create env.fails db r with
    | (db, id, err) =>
      let db := if err = none then
          (AuditService.Log env db actor "add_rule" ("rule:" ++ fmtD id) (some r)).1
        else db
      (db, id, err)

/-- The method `RulesService.Delete`. -/
def RulesService.Delete (env : Env) (db : Tables) (actor : String) (id : Int) :
    Tables × Option GoError :=
  match RuleRepo.Delete env.fails db id with
  | (db, err) =>
    let db := if err = none then
        (AuditService.Log env db actor "del_rule" ("rule:" ++ fmtD id) none).1
      else db
    (db, err)

/-- The function `strings.ToLower` on the ASCII letters; every other character is kept.
(The library also lowers letters outside ASCII; none of them becomes a letter of `accept`
or `drop`, so `validPolicy` accepts the same texts.) -/
def ToLower (s : String) : String :=
  String.mk (s.data.map Char.toLower)

/-- The function `validPolicy`. -/
def validPolicy (p : String) : Bool :=
  let p := ToLower p
  p = "accept" || p = "drop"

/-- The method `DefaultsService.Set`. -/
def DefaultsService.Set (env : Env) (db : Tables) (d : Defaults) : Tables × Option GoError :=
  if !validPolicy d.InputPolicy || !validPolicy d.ForwardPolicy ||
      !validPolicy d.OutputPolicy then
    (db, some (.new "invalid policy"))
  else DefaultsRepo.Set env.fails db d

/-- The method `DefaultsService.Get`. -/
def DefaultsService.Get (env : Env) (db : Tables) : Defaults × Option GoError :=
  DefaultsRepo.Get env.fails db

/-- A sample environment: the sample CIDR parser, a host with the interfaces `lo` and
`eth0`, quoting of plain text, an encoder that writes the chain of the rule only, and a
database on which no operation fails. -/
def sampleEnv : Env :=
  { ParseCIDR := sampleParseCIDR,
    LinkByName := fun name =>
      if name = "lo" ∨ name = "eth0" then none else some (.new "Link not found"),
    Quote := fun s => "\"" ++ s ++ "\"",
    Marshal := fun r => "\x7b\"Chain\":\"" ++ r.Chain ++ "\"\x7d",
    fails := noFault }

/-- The rule of `TestAddRuleValidation`: chain `bad`, tcp, accept, enabled. -/
def badChainRule : Rule :=
  { ID := 0, Chain := "bad", Proto := "tcp", Action := "accept", InIf := none,
    OutIf := none, Ports := [], SrcCIDRs := [], DstCIDRs := [], ICMPTypes := [],
    Comment := none, Enabled := true }

/-- Defaults with the input policy written in capitals. -/
def upperDefaults : Defaults :=
  { InputPolicy := "DROP", ForwardPolicy := "drop", OutputPolicy := "accept",
    LogPrefix := "" }

/-- A rule with the ports 22 and 80, one source and one destination prefix and an ICMP type. -/
def fullRule : Rule :=
  { ID := 0, Chain := "input", Proto := "tcp", Action := "accept", InIf := some "eth0",
    OutIf := none, Ports := [22, 80], SrcCIDRs := ["10.0.0.0/8"],
    DstCIDRs := ["192.168.0.0/16"], ICMPTypes := [8], Comment := some "ssh and web",
    Enabled := true }

/-- The rule of the tests with the single port 80. -/
def webRule : Rule :=
  { ID := 0, Chain := "input", Proto := "tcp", Action := "accept", InIf := none,
    OutIf := none, Ports := [80], SrcCIDRs := [], DstCIDRs := [], ICMPTypes := [],
    Comment := none, Enabled := true }

/-- An oracle on which only the insert of the second port fails. -/
def secondPortFails : DbOp → Option GoError := fun op =>
  if op = DbOp.execInts IntTable.rule_port 1 then some (.new "disk I/O error") else none

/-- The operations `insertInts` issues on a database without fault: none for an empty list,
else the prepare and one insert per entry. -/
def intsOps (t : IntTable) (xs : List Int) : List DbOp :=
  if xs.length = 0 then []
  else DbOp.prepareInts t :: (List.range' 0 xs.length).map (DbOp.execInts t)

/-- The operations `insertStrs` issues on a database without fault. -/
def strsOps (t : StrTable) (xs : List String) : List DbOp :=
  if xs.length = 0 then []
  else DbOp.prepareStrs t :: (List.range' 0 xs.length).map (DbOp.execStrs t)

/-- The steps of `RuleRepo.Create` for the rule `m`, in the order the code issues them: the
begin, the parent insert, the read of its identifier, the inserts of the ports, the source
prefixes, the destination prefixes and the ICMP types, the commit. -/
def createOps (m : Rule) : List DbOp :=
  [DbOp.beginTx, DbOp.insertRule, DbOp.lastInsertId] ++
    intsOps .rule_port m.Ports ++ strsOps .rule_src_cidr m.SrcCIDRs ++
    strsOps .rule_dst_cidr m.DstCIDRs ++ intsOps .rule_icmp_type m.ICMPTypes ++
    [DbOp.commit]

/-- The store after the rule of the tests was created in the fresh store and deleted again:
its port row is still in `rule_port`. -/
def storeAfterDelete : Tables :=
  (RuleRepo.Delete noFault (RuleRepo.Create noFault freshTables sshRule).1 1).1

/-- The store after the rule with the port 80 was created in `storeAfterDelete`. -/
def storeAfterRecreate : Tables :=
  (RuleRepo.Create noFault storeAfterDelete webRule).1

/-- The store holding the rule of the tests (identifier 1) and the full rule (identifier 2),
created in that order in the fresh store. -/
def storeTwoRules : Tables :=
  (RuleRepo.Create noFault (RuleRepo.Create noFault freshTables sshRule).1 fullRule).1

/-- The rule `r` without the fields the renderer does not read: identifier 0, no comment. -/
def eraseIdComment (r : Rule) : Rule :=
  { r with ID := 0, Comment := none }

/-- A rule with the protocol `sctp`, which is none of all, tcp, udp, icmp, that stores ports
and ICMP types. -/
def sctpRule : Rule :=
  { ID := 7, Chain := "input", Proto := "sctp", Action := "accept", InIf := some "eth0",
    OutIf := none, Ports := [22], SrcCIDRs := ["10.0.0.0/8"], DstCIDRs := [], ICMPTypes := [8],
    Comment := none, Enabled := true }

/-- The table content after the rows `(id, v)` for the values `v` of `xs`, in list order,
were appended to the integer child table `t`. -/
def Tables.addInts (db : Tables) (t : IntTable) (id : Int) (xs : List Int) : Tables :=
  match t with
  | .rule_port => { db with rule_port := db.rule_port ++ xs.map (fun v => (id, v)) }
  | .rule_icmp_type =>
    { db with rule_icmp_type := db.rule_icmp_type ++ xs.map (fun v => (id, v)) }

/-- The table content after the rows `(id, v)` for the values `v` of `xs`, in list order,
were appended to the text child table `t`. -/
def Tables.addStrs (db : Tables) (t : StrTable) (id : Int) (xs : List String) : Tables :=
  match t with
  | .rule_src_cidr => { db with rule_src_cidr := db.rule_src_cidr ++ xs.map (fun v => (id, v)) }
  | .rule_dst_cidr => { db with rule_dst_cidr := db.rule_dst_cidr ++ xs.map (fun v => (id, v)) }

/-- The content a create of the rule `m` that meets no fault leaves: the parent row with the
next identifier appended to `rules`, and one row per port, source prefix, destination prefix
and ICMP type appended to the child tables, in list order. -/
def createdTables (db : Tables) (m : Rule) : Tables :=
  ((((db.insertRule (nextRowid db.rules) m).addInts .rule_port (nextRowid db.rules)
    m.Ports).addStrs .rule_src_cidr (nextRowid db.rules) m.SrcCIDRs).addStrs .rule_dst_cidr
    (nextRowid db.rules) m.DstCIDRs).addInts .rule_icmp_type (nextRowid db.rules) m.ICMPTypes

/-- The store states the repositories reach from the fresh store: by creates, deletes,
updates of the defaults and audit writes, each on a database with any faults. -/
inductive Reachable : Tables → Prop where
  | fresh : Reachable freshTables
  | create (fails : DbOp → Option GoError) (db : Tables) (m : Rule) :
      Reachable db → Reachable (RuleRepo.Create fails db m).1
  | delete (fails : DbOp → Option GoError) (db : Tables) (id : Int) :
      Reachable db → Reachable (RuleRepo.Delete fails db id).1
  | setDefaults (fails : DbOp → Option GoError) (db : Tables) (d : Defaults) :
      Reachable db → Reachable (DefaultsRepo.Set fails db d).1
  | audit (fails : DbOp → Option GoError) (db : Tables) (actor action object details : String) :
      Reachable db → Reachable (AuditRepo.Write fails db actor action object details).1

/-- The key of the table `rules`: the identifiers of its rows are pairwise distinct
(`id INTEGER PRIMARY KEY`). -/
def Tables.keyUnique (db : Tables) : Prop :=
  (db.rules.map (fun row => row.id)).Nodup

/-- The identifiers of the rows of `rules` are at least 1, as SQLite assigns them. -/
def Tables.idsPositive (db : Tables) : Prop :=
  ∀ row ∈ db.rules, 1 ≤ row.id

/-! ## cmd/netfence/main.go: the import of a snapshot -/

/-- The document of export and import: the defaults and the rules. -/
structure Snapshot where
  Defaults : Netfence.Defaults
  Rules : List Rule
deriving DecidableEq, Repr

/-- The error of SQLite for a write while another connection holds a write transaction. -/
def ErrLocked : GoError := .new "database table is locked"

/-- The database as a second connection meets it while a transaction with writes is open on
the first: SQLite admits one write transaction at a time, so the first write of the second
connection, the parent insert of `RuleRepo.Create`, fails unless the oracle already makes it
fail. -/
def whileLocked (fails : DbOp → Option GoError) : DbOp → Option GoError := fun op =>
  match fails op with
  | some e => some e
  | none => if op = DbOp.insertRule then some ErrLocked else none

/-- The statement `UPDATE defaults SET input_policy=?,forward_policy=?,output_policy=?,
log_prefix=? WHERE id=1` with the fields of `d`. -/
def Tables.updateDefaults (db : Tables) (d : Defaults) : Tables :=
  { db with defaults :=
      db.defaults.map (fun row => if row.id = 1 then { row with cols := d } else row) }

/-- The loop of the import over the rules of the document: each rule is given to
`rr.Create` as it is, on the connection pool and not on the transaction of the import, so
the create runs on a second connection, on the committed content `db`. -/
def importLoop (env : Env) : Tables → List Rule → Tables × Option GoError
  | db, [] => (db, none)
  | db, r :: rs =>
    match RuleRepo.Create (whileLocked env.fails) db r with
    | (db, _, some e) => (db, some e)
    | (db, _, none) => importLoop env db rs

/-- The body of the `import` command after the lock, the role check and `ReadYAML`: one
transaction deletes all rows of `rules` and updates the defaults row, the rules of the
document are created, the transaction commits, the audit row is written. The result is the
committed content and the returned error. -/
def importSnapshot (env : Env) (db : Tables) (actor : String) (snap : Snapshot) :
    Tables × Option GoError :=
  match env.fails .beginTx with
  | some e => (db, some e)
  | none =>
  let tx := Tx.start db
  match env.fails .deleteAllRules with
  | some e => (tx.Rollback.base, some e)
  | none =>
  let tx := { tx with work := { tx.work with rules := [] } }
  match env.fails .setDefaults with
  | some e => (tx.Rollback.base, some e)
  | none =>
  let tx := { tx with work := tx.work.updateDefaults snap.Defaults }
  match importLoop env tx.base snap.Rules with
  | (base, some e) => ((Tx.Rollback { tx with base := base }).base, some e)
  | (base, none) =>
    match Tx.Commit env.fails { tx with base := base } with
    | (tx, some e) => (tx.base, some e)
    | (tx, none) =>
      ((AuditRepo.Write env.fails tx.base actor "import_yaml" "snapshot"
        ("\x7b\"count\":" ++ fmtD snap.Rules.length ++ "\x7d")).1, none)

/-- Defaults with the input policy `foo`, which is neither `accept` nor `drop`. -/
def fooDefaults : Defaults :=
  { InputPolicy := "foo", ForwardPolicy := "drop", OutputPolicy := "accept", LogPrefix := "" }

/-- A snapshot with the input policy `foo` and no rule. -/
def fooSnapshot : Snapshot :=
  { Defaults := fooDefaults, Rules := [] }

/-- A snapshot with valid defaults and the rule with the chain `lan`. -/
def lanSnapshot : Snapshot :=
  { Defaults := testDefaults, Rules := [lanRule] }

/-! ## Helper lemmas -/

theorem foldl_snoc_map {α β : Type} (f : α → β) (xs : List α) (init : List β) :
    xs.foldl (fun acc x => acc ++ [f x]) init = init ++ xs.map f := by
  induction xs generalizing init with
  | nil => simp
  | cons x xs ih => simp [ih]

theorem renderParts_eq (r : Rule) : renderParts r = specMatches r ++ [r.Action] := by
  unfold renderParts specMatches specInIf specOutIf specProto specPorts specSaddr specDaddr
    specIcmp
  simp only [foldl_snoc_map, List.nil_append, List.length_pos]
  cases r.InIf <;> cases r.OutIf <;>
    by_cases h1 : r.Proto = "all" <;> by_cases h2 : r.Proto = "tcp" <;>
    by_cases h3 : r.Proto = "udp" <;> by_cases h4 : r.Proto = "icmp" <;>
    by_cases h5 : r.Ports = [] <;> by_cases h6 : r.ICMPTypes = [] <;>
    simp_all

theorem Join_snoc (xs : List String) (a sep : String) (h : xs ≠ []) :
    Join (xs ++ [a]) sep = Join xs sep ++ sep ++ a := by
  induction xs with
  | nil => exact absurd rfl h
  | cons x xs ih =>
    cases xs with
    | nil => simp [Join]
    | cons y ys =>
      have := ih (by simp)
      simp only [List.cons_append] at this
      show x ++ sep ++ Join (y :: (ys ++ [a])) sep = x ++ sep ++ Join (y :: ys) sep ++ sep ++ a
      rw [this]
      simp [String.append_assoc]

theorem contains_mid (a sub b : String) : Contains (a ++ sub ++ b) sub := by
  unfold Contains
  exact ⟨a.data, b.data, by simp [String.data_append]⟩

theorem endsWith_append (a suf : String) : EndsWith (a ++ suf) suf := by
  unfold EndsWith
  exact ⟨a.data, by simp [String.data_append]⟩

theorem renderChainStep_append (c b : String) (r : Rule) :
    renderChainStep c b r = b ++ renderChainStep c "" r := by
  unfold renderChainStep
  by_cases h1 : r.Chain ≠ c ∨ r.Enabled = false <;> by_cases h2 : renderRule r = "" <;>
    simp [h1, h2]

theorem foldl_renderChainStep (c : String) (rs : List Rule) (b : String) :
    rs.foldl (renderChainStep c) b = b ++ ruleLines c rs := by
  unfold ruleLines
  induction rs generalizing b with
  | nil => simp
  | cons r rs ih =>
    simp only [List.foldl_cons]
    rw [ih (renderChainStep c b r), ih (renderChainStep c "" r), renderChainStep_append c b r]
    simp [String.append_assoc]

theorem renderChain_eq (b c policy : String) (rs : List Rule) :
    renderChain b c policy rs = b ++ specChainBlock c policy (ruleLines c rs) := by
  unfold renderChain specChainBlock
  simp only [foldl_renderChainStep, String.append_assoc]

theorem Render_eq (d : Defaults) (rs : List Rule) :
    Render d rs =
      specScript d (ruleLines "input" rs) (ruleLines "forward" rs) (ruleLines "output" rs) := by
  unfold Render specScript
  simp only [renderChain_eq, String.append_assoc, String.empty_append]
  have h : "flush ruleset\n\n" = "flush ruleset\n" ++ "\n" := by decide
  rw [h, String.append_assoc]

theorem ruleLines_eq (c : String) (rs : List Rule) :
    ruleLines c rs =
      concatLines ((rs.filter (fun r =>
        decide (r.Enabled = true ∧ r.Chain = c ∧ renderRule r ≠ ""))).map stmtLine) := by
  induction rs with
  | nil => rfl
  | cons r rs ih =>
    have h : ruleLines c (r :: rs) = renderChainStep c "" r ++ ruleLines c rs := by
      unfold ruleLines
      simp only [List.foldl_cons]
      exact foldl_renderChainStep c rs _
    rw [h, ih]
    unfold renderChainStep
    by_cases h1 : r.Chain = c <;> by_cases h2 : r.Enabled = true <;>
      by_cases h3 : renderRule r = "" <;>
      simp [List.filter_cons, h1, h2, h3, concatLines, stmtLine]

theorem contains_append_right (s sub b : String) (h : Contains s sub) :
    Contains (s ++ b) sub := by
  unfold Contains at *
  obtain ⟨u, v, huv⟩ := h
  exact ⟨u, v ++ b.data, by simp [String.data_append, ← huv]⟩

theorem contains_append_left (a s sub : String) (h : Contains s sub) :
    Contains (a ++ s) sub := by
  unfold Contains at *
  obtain ⟨u, v, huv⟩ := h
  exact ⟨a.data ++ u, v, by simp [String.data_append, ← huv]⟩

theorem specChainBlock_contains_policy (c body : String) :
    Contains (specChainBlock c "drop" body) "policy drop" := by
  have e1 : " priority 0; policy " = " priority 0; " ++ "policy " := by decide
  have e2 : "policy drop" = "policy " ++ "drop" := by decide
  unfold specChainBlock
  rw [e1, e2]
  unfold Contains
  refine ⟨("  chain " ++ c ++ " \x7b\n" ++ "    type filter hook " ++ c ++ " priority 0; ").data,
    (";\n" ++ "    ct state established,related accept\n" ++ body ++ "  \x7d\n\n").data, ?_⟩
  simp only [String.data_append, List.append_assoc]

theorem specScript_contains_flush (d : Defaults) (a b c : String) :
    Contains (specScript d a b c) "flush ruleset" := by
  have e : "flush ruleset\n" = "" ++ "flush ruleset" ++ "\n" := by decide
  unfold specScript
  rw [e]
  iterate 6 apply contains_append_right
  exact contains_mid _ _ _

theorem specScript_contains_policy (d : Defaults) (a b c : String)
    (h : d.InputPolicy = "drop" ∨ d.ForwardPolicy = "drop" ∨ d.OutputPolicy = "drop") :
    Contains (specScript d a b c) "policy drop" := by
  unfold specScript
  rcases h with h | h | h <;> rw [h]
  · apply contains_append_right
    apply contains_append_right
    apply contains_append_right
    apply contains_append_left
    exact specChainBlock_contains_policy _ _
  · apply contains_append_right
    apply contains_append_right
    apply contains_append_left
    exact specChainBlock_contains_policy _ _
  · apply contains_append_right
    apply contains_append_left
    exact specChainBlock_contains_policy _ _

theorem oneOf_iff (v : String) (xs : List String) : oneOf v xs = true ↔ v ∈ xs := by
  induction xs with
  | nil => simp [oneOf]
  | cons x xs ih =>
    unfold oneOf
    by_cases h : v = x <;> simp [h, ih]

theorem portsLoop_eq (ps : List Int) :
    portsLoop ps = if ∃ p ∈ ps, ¬ (1 ≤ p ∧ p ≤ 65535) then some (Err "port") else none := by
  induction ps with
  | nil => simp [portsLoop]
  | cons p ps ih =>
    unfold portsLoop
    rw [ih]
    by_cases h : p ≤ 0 ∨ p > 65535
    · have hb : ¬ (1 ≤ p ∧ p ≤ 65535) := by omega
      rw [if_pos h, if_pos ⟨p, List.mem_cons_self _ _, hb⟩]
    · have hg : 1 ≤ p ∧ p ≤ 65535 := by omega
      rw [if_neg h]
      by_cases h2 : ∃ q ∈ ps, ¬ (1 ≤ q ∧ q ≤ 65535)
      · obtain ⟨q, hq, hqb⟩ := h2
        rw [if_pos ⟨q, hq, hqb⟩, if_pos ⟨q, List.mem_cons_of_mem _ hq, hqb⟩]
      · rw [if_neg h2, if_neg]
        rintro ⟨q, hq, hqb⟩
        rcases List.mem_cons.mp hq with rfl | hq
        · exact hqb hg
        · exact h2 ⟨q, hq, hqb⟩

theorem icmpLoop_eq (ts : List Int) :
    icmpLoop ts = if ∃ t ∈ ts, ¬ (0 ≤ t ∧ t ≤ 255) then some (Err "icmp_type") else none := by
  induction ts with
  | nil => simp [icmpLoop]
  | cons t ts ih =>
    unfold icmpLoop
    rw [ih]
    by_cases h : t < 0 ∨ t > 255
    · have hb : ¬ (0 ≤ t ∧ t ≤ 255) := by omega
      rw [if_pos h, if_pos ⟨t, List.mem_cons_self _ _, hb⟩]
    · have hg : 0 ≤ t ∧ t ≤ 255 := by omega
      rw [if_neg h]
      by_cases h2 : ∃ q ∈ ts, ¬ (0 ≤ q ∧ q ≤ 255)
      · obtain ⟨q, hq, hqb⟩ := h2
        rw [if_pos ⟨q, hq, hqb⟩, if_pos ⟨q, List.mem_cons_of_mem _ hq, hqb⟩]
      · rw [if_neg h2, if_neg]
        rintro ⟨q, hq, hqb⟩
        rcases List.mem_cons.mp hq with rfl | hq
        · exact hqb hg
        · exact h2 ⟨q, hq, hqb⟩

theorem cidrLoop_eq (P : String → Bool) (f : String) (cs : List String) :
    cidrLoop P f cs = if ∃ c ∈ cs, P c = false then some (Err f) else none := by
  induction cs with
  | nil => simp [cidrLoop]
  | cons c cs ih =>
    unfold cidrLoop
    rw [ih]
    by_cases h : P c = false <;> simp [h]

theorem blankIf_iff (o : Option String) :
    blankIf o = true ↔ ∃ s, o = some s ∧ TrimSpace s = "" := by
  cases o <;> simp [blankIf]

theorem validateRule_eq (P : String → Bool) (r : Rule) :
    validateRule P r = (specFirstViolation P r).map Err := by
  unfold validateRule specFirstViolation
  rw [portsLoop_eq, cidrLoop_eq, cidrLoop_eq, icmpLoop_eq]
  have hin := blankIf_iff r.InIf
  have hout := blankIf_iff r.OutIf
  have hc := oneOf_iff r.Chain ["input", "forward", "output"]
  have hp := oneOf_iff r.Proto ["all", "tcp", "udp", "icmp"]
  have ha := oneOf_iff r.Action ["accept", "drop"]
  by_cases h1 : r.Chain ∈ ["input", "forward", "output"]
  · by_cases h2 : r.Proto ∈ ["all", "tcp", "udp", "icmp"]
    · by_cases h3 : r.Action ∈ ["accept", "drop"]
      · rw [if_neg (by simp [hc.mpr h1]), if_neg (by simp [hp.mpr h2]),
          if_neg (by simp [ha.mpr h3]), if_neg (not_not.mpr h1), if_neg (not_not.mpr h2),
          if_neg (not_not.mpr h3)]
        by_cases h4 : ∃ p ∈ r.Ports, ¬ (1 ≤ p ∧ p ≤ 65535)
        · simp only [if_pos h4, Option.map_some']
        · simp only [if_neg h4]
          by_cases h5 : ∃ c ∈ r.SrcCIDRs, P c = false
          · simp only [if_pos h5, Option.map_some']
          · simp only [if_neg h5]
            by_cases h6 : ∃ c ∈ r.DstCIDRs, P c = false
            · simp only [if_pos h6, Option.map_some']
            · simp only [if_neg h6]
              by_cases h7 : ∃ t ∈ r.ICMPTypes, ¬ (0 ≤ t ∧ t ≤ 255)
              · simp only [if_pos h7, Option.map_some']
              · simp only [if_neg h7]
                by_cases h8 : ∃ s, r.InIf = some s ∧ TrimSpace s = ""
                · simp only [if_pos h8, if_pos (hin.mpr h8), Option.map_some']
                · have h8b : ¬ blankIf r.InIf = true := fun h => h8 (hin.mp h)
                  simp only [if_neg h8, if_neg h8b]
                  by_cases h9 : ∃ s, r.OutIf = some s ∧ TrimSpace s = ""
                  · simp only [if_pos h9, if_pos (hout.mpr h9), Option.map_some']
                  · have h9b : ¬ blankIf r.OutIf = true := fun h => h9 (hout.mp h)
                    simp only [if_neg h9, if_neg h9b, Option.map_none']
      · have h3b : oneOf r.Action ["accept", "drop"] = false := by
          rw [Bool.eq_false_iff]; exact fun h => h3 (ha.mp h)
        rw [if_neg (by simp [hc.mpr h1]), if_neg (by simp [hp.mpr h2]),
          if_pos (by simp [h3b]), if_neg (not_not.mpr h1), if_neg (not_not.mpr h2),
          if_pos h3]
        rfl
    · have h2b : oneOf r.Proto ["all", "tcp", "udp", "icmp"] = false := by
        rw [Bool.eq_false_iff]; exact fun h => h2 (hp.mp h)
      rw [if_neg (by simp [hc.mpr h1]), if_pos (by simp [h2b]), if_neg (not_not.mpr h1),
        if_pos h2]
      rfl
  · have h1b : oneOf r.Chain ["input", "forward", "output"] = false := by
      rw [Bool.eq_false_iff]; exact fun h => h1 (hc.mp h)
    rw [if_pos (by simp [h1b]), if_pos h1]
    rfl

theorem Err_Error (f : String) : (Err f).Error = "invalid rule: " ++ f := by
  have e : "invalid rule: " = "invalid rule" ++ ": " := by decide
  rw [e]
  rfl

theorem Err_Is (f : String) : (Err f).Is ErrInvalid = true := by
  simp [Err, Errorf_w_s, GoError.Is, ErrInvalid]

theorem validateRule_none_iff (ParseCIDR : String → Bool) (r : Rule) :
    validateRule ParseCIDR r = none ↔
      r.Chain ∈ ["input", "forward", "output"] ∧
      r.Proto ∈ ["all", "tcp", "udp", "icmp"] ∧
      r.Action ∈ ["accept", "drop"] ∧
      (∀ p ∈ r.Ports, 1 ≤ p ∧ p ≤ 65535) ∧
      (∀ c ∈ r.SrcCIDRs, ParseCIDR c = true) ∧
      (∀ c ∈ r.DstCIDRs, ParseCIDR c = true) ∧
      (∀ t ∈ r.ICMPTypes, 0 ≤ t ∧ t ≤ 255) ∧
      (∀ s, r.InIf = some s → TrimSpace s ≠ "") ∧
      (∀ s, r.OutIf = some s → TrimSpace s ≠ "") := by
  rw [validateRule_eq]
  unfold specFirstViolation
  by_cases h1 : r.Chain ∈ ["input", "forward", "output"]
  · by_cases h2 : r.Proto ∈ ["all", "tcp", "udp", "icmp"]
    · by_cases h3 : r.Action ∈ ["accept", "drop"]
      · by_cases h4 : ∃ p ∈ r.Ports, ¬ (1 ≤ p ∧ p ≤ 65535)
        · rw [if_neg (not_not.mpr h1), if_neg (not_not.mpr h2), if_neg (not_not.mpr h3),
            if_pos h4]
          obtain ⟨p, hp, hb⟩ := h4
          exact ⟨fun h => by simp at h, fun h => absurd (h.2.2.2.1 p hp) hb⟩
        · by_cases h5 : ∃ c ∈ r.SrcCIDRs, ParseCIDR c = false
          · rw [if_neg (not_not.mpr h1), if_neg (not_not.mpr h2), if_neg (not_not.mpr h3),
              if_neg h4, if_pos h5]
            obtain ⟨c, hc, hb⟩ := h5
            exact ⟨fun h => by simp at h,
              fun h => by have := h.2.2.2.2.1 c hc; rw [hb] at this; cases this⟩
          · by_cases h6 : ∃ c ∈ r.DstCIDRs, ParseCIDR c = false
            · rw [if_neg (not_not.mpr h1), if_neg (not_not.mpr h2), if_neg (not_not.mpr h3),
                if_neg h4, if_neg h5, if_pos h6]
              obtain ⟨c, hc, hb⟩ := h6
              exact ⟨fun h => by simp at h,
                fun h => by have := h.2.2.2.2.2.1 c hc; rw [hb] at this; cases this⟩
            · by_cases h7 : ∃ t ∈ r.ICMPTypes, ¬ (0 ≤ t ∧ t ≤ 255)
              · rw [if_neg (not_not.mpr h1), if_neg (not_not.mpr h2),
                  if_neg (not_not.mpr h3), if_neg h4, if_neg h5, if_neg h6, if_pos h7]
                obtain ⟨t, ht, hb⟩ := h7
                exact ⟨fun h => by simp at h, fun h => absurd (h.2.2.2.2.2.2.1 t ht) hb⟩
              · by_cases h8 : ∃ s, r.InIf = some s ∧ TrimSpace s = ""
                · rw [if_neg (not_not.mpr h1), if_neg (not_not.mpr h2),
                    if_neg (not_not.mpr h3), if_neg h4, if_neg h5, if_neg h6, if_neg h7,
                    if_pos h8]
                  obtain ⟨x, hx, hb⟩ := h8
                  exact ⟨fun h => by simp at h,
                    fun h => absurd hb (h.2.2.2.2.2.2.2.1 x hx)⟩
                · by_cases h9 : ∃ s, r.OutIf = some s ∧ TrimSpace s = ""
                  · rw [if_neg (not_not.mpr h1), if_neg (not_not.mpr h2),
                      if_neg (not_not.mpr h3), if_neg h4, if_neg h5, if_neg h6, if_neg h7,
                      if_neg h8, if_pos h9]
                    obtain ⟨x, hx, hb⟩ := h9
                    exact ⟨fun h => by simp at h,
                      fun h => absurd hb (h.2.2.2.2.2.2.2.2 x hx)⟩
                  · rw [if_neg (not_not.mpr h1), if_neg (not_not.mpr h2),
                      if_neg (not_not.mpr h3), if_neg h4, if_neg h5, if_neg h6, if_neg h7,
                      if_neg h8, if_neg h9]
                    refine ⟨fun _ => ⟨h1, h2, h3, ?_, ?_, ?_, ?_, ?_, ?_⟩, fun _ => rfl⟩
                    · intro p hp
                      by_contra hb
                      exact h4 ⟨p, hp, hb⟩
                    · intro c hc
                      by_contra hb
                      exact h5 ⟨c, hc, by simpa using hb⟩
                    · intro c hc
                      by_contra hb
                      exact h6 ⟨c, hc, by simpa using hb⟩
                    · intro t ht
                      by_contra hb
                      exact h7 ⟨t, ht, hb⟩
                    · intro x hx hb
                      exact h8 ⟨x, hx, hb⟩
                    · intro x hx hb
                      exact h9 ⟨x, hx, hb⟩
      · rw [if_neg (not_not.mpr h1), if_neg (not_not.mpr h2), if_pos h3]
        exact ⟨fun h => by simp at h, fun h => absurd h.2.2.1 h3⟩
    · rw [if_neg (not_not.mpr h1), if_pos h2]
      exact ⟨fun h => by simp at h, fun h => absurd h.2.1 h2⟩
  · rw [if_pos h1]
    exact ⟨fun h => by simp at h, fun h => absurd h.1 h1⟩

theorem specPorts_nil (r : Rule) (h : r.Ports = [] ∨ (r.Proto ≠ "tcp" ∧ r.Proto ≠ "udp")) :
    specPorts r = [] := by
  unfold specPorts
  rcases h with h | ⟨h1, h2⟩
  · simp [h]
  · simp [h1, h2]

theorem specIcmp_nil (r : Rule) (h : r.Proto ≠ "icmp" ∨ r.ICMPTypes = []) :
    specIcmp r = [] := by
  unfold specIcmp
  rcases h with h | h <;> simp [h]

theorem specProto_all (r : Rule) (h : r.Proto = "all") : specProto r = [] := by
  unfold specProto
  rw [h]
  decide

theorem Render_eq_chainRules (d : Defaults) (rs : List Rule) :
    Render d rs =
      specScript d (concatLines ((chainRules "input" rs).map stmtLine))
        (concatLines ((chainRules "forward" rs).map stmtLine))
        (concatLines ((chainRules "output" rs).map stmtLine)) := by
  rw [Render_eq, ruleLines_eq, ruleLines_eq, ruleLines_eq]
  rfl

theorem validateRule_proto_irrelevant (P : String → Bool) (r : Rule) (p1 p2 : String)
    (h1 : p1 ∈ ["all", "tcp", "udp", "icmp"]) (h2 : p2 ∈ ["all", "tcp", "udp", "icmp"]) :
    validateRule P { r with Proto := p1 } = validateRule P { r with Proto := p2 } := by
  rw [validateRule_eq, validateRule_eq]
  unfold specFirstViolation
  simp only [if_neg (not_not.mpr h1), if_neg (not_not.mpr h2)]

theorem noLineBreak_iff (s : String) :
    noLineBreak s = true ↔ ∀ c ∈ s.data, c ≠ '\n' ∧ c ≠ '\r' := by
  unfold noLineBreak
  simp [List.all_eq_true]

theorem noLineBreak_append (a b : String) :
    noLineBreak (a ++ b) = true ↔ noLineBreak a = true ∧ noLineBreak b = true := by
  simp only [noLineBreak_iff, String.data_append, List.mem_append]
  constructor
  · intro h
    exact ⟨fun c hc => h c (Or.inl hc), fun c hc => h c (Or.inr hc)⟩
  · rintro ⟨ha, hb⟩ c (hc | hc)
    · exact ha c hc
    · exact hb c hc

theorem noLineBreak_Join (xs : List String) (sep : String) (hsep : noLineBreak sep = true)
    (h : ∀ x ∈ xs, noLineBreak x = true) : noLineBreak (Join xs sep) = true := by
  induction xs with
  | nil => rfl
  | cons x xs ih =>
    cases xs with
    | nil => exact h x (List.mem_cons_self _ _)
    | cons y ys =>
      show noLineBreak (x ++ sep ++ Join (y :: ys) sep) = true
      rw [noLineBreak_append, noLineBreak_append]
      exact ⟨⟨h x (List.mem_cons_self _ _), hsep⟩,
        ih (fun z hz => h z (List.mem_cons_of_mem _ hz))⟩

theorem digitChar_noLineBreak (d : Nat) :
    Nat.digitChar (d % 10) ≠ '\n' ∧ Nat.digitChar (d % 10) ≠ '\r' := by
  have key : ∀ k, k < 10 → (Nat.digitChar k ≠ '\n' ∧ Nat.digitChar k ≠ '\r') := by decide
  exact key (d % 10) (Nat.mod_lt _ (by decide))

theorem toDigitsCore_noLineBreak (fuel n : Nat) (ds : List Char)
    (h : ∀ c ∈ ds, c ≠ '\n' ∧ c ≠ '\r') :
    ∀ c ∈ Nat.toDigitsCore 10 fuel n ds, c ≠ '\n' ∧ c ≠ '\r' := by
  induction fuel generalizing n ds with
  | zero => simpa [Nat.toDigitsCore] using h
  | succ fuel ih =>
    have hcons : ∀ c ∈ Nat.digitChar (n % 10) :: ds, c ≠ '\n' ∧ c ≠ '\r' := by
      intro c hc
      rcases List.mem_cons.mp hc with rfl | hc
      · exact digitChar_noLineBreak n
      · exact h c hc
    unfold Nat.toDigitsCore
    by_cases h0 : n / 10 = 0
    · simpa [h0] using hcons
    · simp only [h0, if_false]
      exact ih (n / 10) _ hcons

theorem natRepr_noLineBreak (n : Nat) : noLineBreak (Nat.repr n) = true := by
  rw [noLineBreak_iff]
  exact toDigitsCore_noLineBreak _ _ [] (by simp)

theorem fmtD_noLineBreak (n : Int) : noLineBreak (fmtD n) = true := by
  unfold fmtD
  cases n with
  | ofNat m => exact natRepr_noLineBreak m
  | negSucc m =>
    show noLineBreak ("-" ++ Nat.repr (m + 1)) = true
    rw [noLineBreak_append]
    exact ⟨by decide, natRepr_noLineBreak _⟩

theorem renderRule_noLineBreak (P : String → Bool) (r : Rule)
    (hP : ∀ c, P c = true → noLineBreak c = true)
    (hv : validateRule P r = none)
    (hin : ∀ s, r.InIf = some s → noLineBreak s = true)
    (hout : ∀ s, r.OutIf = some s → noLineBreak s = true) :
    noLineBreak (renderRule r) = true := by
  obtain ⟨-, -, hact, -, hsrc, hdst, -, -, -⟩ := (validateRule_none_iff P r).mp hv
  unfold renderRule
  rw [renderParts_eq]
  apply noLineBreak_Join _ " " (by decide)
  intro x hx
  unfold specMatches at hx
  simp only [List.mem_append, List.mem_singleton] at hx
  rcases hx with (((((((hx | hx) | hx) | hx) | hx) | hx) | hx) | hx)
  · unfold specInIf at hx
    cases hi : r.InIf with
    | none => rw [hi] at hx; cases hx
    | some s =>
      rw [hi] at hx
      rw [List.mem_singleton.mp hx, noLineBreak_append, noLineBreak_append]
      exact ⟨⟨by decide, hin s hi⟩, by decide⟩
  · unfold specOutIf at hx
    cases hi : r.OutIf with
    | none => rw [hi] at hx; cases hx
    | some s =>
      rw [hi] at hx
      rw [List.mem_singleton.mp hx, noLineBreak_append, noLineBreak_append]
      exact ⟨⟨by decide, hout s hi⟩, by decide⟩
  · unfold specProto at hx
    by_cases hp : r.Proto = "tcp" ∨ r.Proto = "udp" ∨ r.Proto = "icmp"
    · rw [if_pos hp] at hx
      rw [List.mem_singleton.mp hx, noLineBreak_append]
      refine ⟨by decide, ?_⟩
      rcases hp with hp | hp | hp <;> rw [hp] <;> decide
    · rw [if_neg hp] at hx
      cases hx
  · unfold specPorts at hx
    by_cases hp : r.Ports ≠ [] ∧ (r.Proto = "tcp" ∨ r.Proto = "udp")
    · rw [if_pos hp] at hx
      rw [List.mem_singleton.mp hx, noLineBreak_append, noLineBreak_append,
        noLineBreak_append]
      refine ⟨⟨⟨?_, by decide⟩, ?_⟩, by decide⟩
      · rcases hp.2 with hp | hp <;> rw [hp] <;> decide
      · apply noLineBreak_Join _ "," (by decide)
        intro y hy
        obtain ⟨p, -, rfl⟩ := List.mem_map.mp hy
        exact fmtD_noLineBreak p
    · rw [if_neg hp] at hx
      cases hx
  · unfold specSaddr at hx
    obtain ⟨c, hc, rfl⟩ := List.mem_map.mp hx
    rw [noLineBreak_append]
    exact ⟨by decide, hP c (hsrc c hc)⟩
  · unfold specDaddr at hx
    obtain ⟨c, hc, rfl⟩ := List.mem_map.mp hx
    rw [noLineBreak_append]
    exact ⟨by decide, hP c (hdst c hc)⟩
  · unfold specIcmp at hx
    by_cases hp : r.ICMPTypes ≠ [] ∧ r.Proto = "icmp"
    · rw [if_pos hp] at hx
      rw [List.mem_singleton.mp hx, noLineBreak_append, noLineBreak_append]
      refine ⟨⟨by decide, ?_⟩, by decide⟩
      apply noLineBreak_Join _ "," (by decide)
      intro y hy
      obtain ⟨p, -, rfl⟩ := List.mem_map.mp hy
      exact fmtD_noLineBreak p
    · rw [if_neg hp] at hx
      cases hx
  · rw [hx]
    simp only [List.mem_cons, List.mem_singleton, List.not_mem_nil, or_false] at hact
    rcases hact with ha | ha <;> rw [ha] <;> decide

theorem Tx.Rollback_base (tx : Tx) : tx.Rollback.base = tx.base := by
  unfold Tx.Rollback
  split <;> rfl

theorem insertIntsLoop_base (fails : DbOp → Option GoError) (t : IntTable) (id : Int)
    (xs : List Int) (tx : Tx) (i : Nat) :
    (insertIntsLoop fails t id tx xs i).1.base = tx.base := by
  induction xs generalizing tx i with
  | nil => rfl
  | cons v vs ih =>
    unfold insertIntsLoop
    split
    · rfl
    · rw [ih]

theorem insertInts_base (fails : DbOp → Option GoError) (tx : Tx) (t : IntTable) (id : Int)
    (xs : List Int) : (insertInts fails tx t id xs).1.base = tx.base := by
  unfold insertInts
  split
  · rfl
  · split
    · rfl
    · exact insertIntsLoop_base fails t id xs tx 0

theorem insertStrsLoop_base (fails : DbOp → Option GoError) (t : StrTable) (id : Int)
    (xs : List String) (tx : Tx) (i : Nat) :
    (insertStrsLoop fails t id tx xs i).1.base = tx.base := by
  induction xs generalizing tx i with
  | nil => rfl
  | cons v vs ih =>
    unfold insertStrsLoop
    split
    · rfl
    · rw [ih]

theorem insertStrs_base (fails : DbOp → Option GoError) (tx : Tx) (t : StrTable) (id : Int)
    (xs : List String) : (insertStrs fails tx t id xs).1.base = tx.base := by
  unfold insertStrs
  split
  · rfl
  · split
    · rfl
    · exact insertStrsLoop_base fails t id xs tx 0

theorem createBody_fail (fails : DbOp → Option GoError) (tx : Tx) (m : Rule) :
    (RuleRepo.createBody fails tx m).2.2 ≠ none →
      (RuleRepo.createBody fails tx m).1.base = tx.base ∧
        (RuleRepo.createBody fails tx m).2.1 = 0 := by
  unfold RuleRepo.createBody
  cases h0 : fails .insertRule with
  | some e => exact fun _ => ⟨rfl, rfl⟩
  | none =>
  cases h1 : fails .lastInsertId with
  | some e => exact fun _ => ⟨rfl, rfl⟩
  | none =>
  simp only []
  have b1 := insertInts_base fails { tx with work := tx.work.insertRule (nextRowid tx.work.rules) m }
    .rule_port (nextRowid tx.work.rules) m.Ports
  rcases h2 : insertInts fails { tx with work := tx.work.insertRule (nextRowid tx.work.rules) m }
    .rule_port (nextRowid tx.work.rules) m.Ports with ⟨tx2, _ | e2⟩
  all_goals rw [h2] at b1
  case some => exact fun _ => ⟨b1, rfl⟩
  simp only []
  have b2 := insertStrs_base fails tx2 .rule_src_cidr (nextRowid tx.work.rules) m.SrcCIDRs
  rcases h3 : insertStrs fails tx2 .rule_src_cidr (nextRowid tx.work.rules) m.SrcCIDRs
    with ⟨tx3, _ | e3⟩
  all_goals rw [h3] at b2
  case some => exact fun _ => ⟨b2.trans b1, rfl⟩
  simp only []
  have b3 := insertStrs_base fails tx3 .rule_dst_cidr (nextRowid tx.work.rules) m.DstCIDRs
  rcases h4 : insertStrs fails tx3 .rule_dst_cidr (nextRowid tx.work.rules) m.DstCIDRs
    with ⟨tx4, _ | e4⟩
  all_goals rw [h4] at b3
  case some => exact fun _ => ⟨b3.trans (b2.trans b1), rfl⟩
  simp only []
  have b4 := insertInts_base fails tx4 .rule_icmp_type (nextRowid tx.work.rules) m.ICMPTypes
  rcases h5 : insertInts fails tx4 .rule_icmp_type (nextRowid tx.work.rules) m.ICMPTypes
    with ⟨tx5, _ | e5⟩
  all_goals rw [h5] at b4
  case some => exact fun _ => ⟨b4.trans (b3.trans (b2.trans b1)), rfl⟩
  simp only []
  unfold Tx.Commit
  cases h6 : fails .commit with
  | some e => exact fun _ => ⟨b4.trans (b3.trans (b2.trans b1)), rfl⟩
  | none => exact fun h => absurd rfl h

theorem insertIntsLoop_err (fails : DbOp → Option GoError) (t : IntTable) (id : Int)
    (xs : List Int) (tx : Tx) (i : Nat) :
    (insertIntsLoop fails t id tx xs i).2 =
      ((List.range' i xs.length).map (DbOp.execInts t)).findSome? fails := by
  induction xs generalizing tx i with
  | nil => rfl
  | cons v vs ih =>
    unfold insertIntsLoop
    simp only [List.length_cons, List.range'_succ, List.map_cons, List.findSome?_cons]
    cases h : fails (.execInts t i) with
    | some e => rfl
    | none => exact ih _ _

theorem insertInts_err (fails : DbOp → Option GoError) (tx : Tx) (t : IntTable) (id : Int)
    (xs : List Int) : (insertInts fails tx t id xs).2 = (intsOps t xs).findSome? fails := by
  unfold insertInts intsOps
  by_cases h0 : xs.length = 0
  · simp [h0]
  · simp only [h0, if_false, List.findSome?_cons]
    cases h : fails (.prepareInts t) with
    | some e => rfl
    | none => exact insertIntsLoop_err fails t id xs tx 0

theorem insertStrsLoop_err (fails : DbOp → Option GoError) (t : StrTable) (id : Int)
    (xs : List String) (tx : Tx) (i : Nat) :
    (insertStrsLoop fails t id tx xs i).2 =
      ((List.range' i xs.length).map (DbOp.execStrs t)).findSome? fails := by
  induction xs generalizing tx i with
  | nil => rfl
  | cons v vs ih =>
    unfold insertStrsLoop
    simp only [List.length_cons, List.range'_succ, List.map_cons, List.findSome?_cons]
    cases h : fails (.execStrs t i) with
    | some e => rfl
    | none => exact ih _ _

theorem insertStrs_err (fails : DbOp → Option GoError) (tx : Tx) (t : StrTable) (id : Int)
    (xs : List String) : (insertStrs fails tx t id xs).2 = (strsOps t xs).findSome? fails := by
  unfold insertStrs strsOps
  by_cases h0 : xs.length = 0
  · simp [h0]
  · simp only [h0, if_false, List.findSome?_cons]
    cases h : fails (.prepareStrs t) with
    | some e => rfl
    | none => exact insertStrsLoop_err fails t id xs tx 0

theorem createBody_err (fails : DbOp → Option GoError) (tx : Tx) (m : Rule) :
    (RuleRepo.createBody fails tx m).2.2 =
      ([DbOp.insertRule, DbOp.lastInsertId] ++
        intsOps .rule_port m.Ports ++ strsOps .rule_src_cidr m.SrcCIDRs ++
        strsOps .rule_dst_cidr m.DstCIDRs ++ intsOps .rule_icmp_type m.ICMPTypes ++
        [DbOp.commit]).findSome? fails := by
  unfold RuleRepo.createBody
  simp only [List.findSome?_append, List.cons_append, List.nil_append, List.findSome?_cons,
    List.findSome?_nil]
  cases h0 : fails .insertRule with
  | some e => rfl
  | none =>
  cases h1 : fails .lastInsertId with
  | some e => rfl
  | none =>
  simp only []
  have e1 := insertInts_err fails { tx with work := tx.work.insertRule (nextRowid tx.work.rules) m }
    .rule_port (nextRowid tx.work.rules) m.Ports
  rcases h2 : insertInts fails { tx with work := tx.work.insertRule (nextRowid tx.work.rules) m }
    .rule_port (nextRowid tx.work.rules) m.Ports with ⟨tx2, _ | e2⟩
  all_goals rw [h2] at e1
  all_goals simp only [] at e1
  all_goals rw [← e1]
  case some => rfl
  simp only [Option.none_or]
  have e2 := insertStrs_err fails tx2 .rule_src_cidr (nextRowid tx.work.rules) m.SrcCIDRs
  rcases h3 : insertStrs fails tx2 .rule_src_cidr (nextRowid tx.work.rules) m.SrcCIDRs
    with ⟨tx3, _ | e3⟩
  all_goals rw [h3] at e2
  all_goals simp only [] at e2
  all_goals rw [← e2]
  case some => rfl
  simp only [Option.none_or]
  have e3 := insertStrs_err fails tx3 .rule_dst_cidr (nextRowid tx.work.rules) m.DstCIDRs
  rcases h4 : insertStrs fails tx3 .rule_dst_cidr (nextRowid tx.work.rules) m.DstCIDRs
    with ⟨tx4, _ | e4⟩
  all_goals rw [h4] at e3
  all_goals simp only [] at e3
  all_goals rw [← e3]
  case some => rfl
  simp only [Option.none_or]
  have e4 := insertInts_err fails tx4 .rule_icmp_type (nextRowid tx.work.rules) m.ICMPTypes
  rcases h5 : insertInts fails tx4 .rule_icmp_type (nextRowid tx.work.rules) m.ICMPTypes
    with ⟨tx5, _ | e5⟩
  all_goals rw [h5] at e4
  all_goals simp only [] at e4
  all_goals rw [← e4]
  case some => rfl
  simp only [Option.none_or]
  unfold Tx.Commit
  cases h6 : fails .commit with
  | some e => rfl
  | none => rfl

theorem createBody_id (fails : DbOp → Option GoError) (tx : Tx) (m : Rule) :
    (RuleRepo.createBody fails tx m).2.2 = none →
      (RuleRepo.createBody fails tx m).2.1 = nextRowid tx.work.rules := by
  unfold RuleRepo.createBody
  cases h0 : fails .insertRule with
  | some e => exact fun h => absurd h (by simp)
  | none =>
  cases h1 : fails .lastInsertId with
  | some e => exact fun h => absurd h (by simp)
  | none =>
  simp only []
  rcases h2 : insertInts fails { tx with work := tx.work.insertRule (nextRowid tx.work.rules) m }
    .rule_port (nextRowid tx.work.rules) m.Ports with ⟨tx2, _ | e2⟩
  case some => exact fun h => absurd h (by simp)
  simp only []
  rcases h3 : insertStrs fails tx2 .rule_src_cidr (nextRowid tx.work.rules) m.SrcCIDRs
    with ⟨tx3, _ | e3⟩
  case some => exact fun h => absurd h (by simp)
  simp only []
  rcases h4 : insertStrs fails tx3 .rule_dst_cidr (nextRowid tx.work.rules) m.DstCIDRs
    with ⟨tx4, _ | e4⟩
  case some => exact fun h => absurd h (by simp)
  simp only []
  rcases h5 : insertInts fails tx4 .rule_icmp_type (nextRowid tx.work.rules) m.ICMPTypes
    with ⟨tx5, _ | e5⟩
  case some => exact fun h => absurd h (by simp)
  simp only []
  unfold Tx.Commit
  cases h6 : fails .commit with
  | some e => exact fun h => absurd h (by simp)
  | none => exact fun _ => rfl

theorem Create_err (fails : DbOp → Option GoError) (db : Tables) (m : Rule) :
    (RuleRepo.Create fails db m).2.2 = (createOps m).findSome? fails := by
  unfold RuleRepo.Create createOps
  simp only [List.cons_append, List.nil_append, List.findSome?_cons]
  cases h : fails .beginTx with
  | some e => rfl
  | none =>
    have := createBody_err fails (Tx.start db) m
    simp only [List.cons_append, List.nil_append, List.findSome?_cons] at this
    exact this

theorem Create_fail (fails : DbOp → Option GoError) (db : Tables) (m : Rule)
    (h : (RuleRepo.Create fails db m).2.2 ≠ none) :
    (RuleRepo.Create fails db m).1 = db ∧ (RuleRepo.Create fails db m).2.1 = 0 := by
  unfold RuleRepo.Create at h ⊢
  cases hb : fails .beginTx with
  | some e => exact ⟨rfl, rfl⟩
  | none =>
    rw [hb] at h
    simp only [] at h ⊢
    have hf := createBody_fail fails (Tx.start db) m h
    rw [if_pos h]
    exact ⟨(Tx.Rollback_base _).trans hf.1, hf.2⟩

theorem Create_ok_id (fails : DbOp → Option GoError) (db : Tables) (m : Rule)
    (h : (RuleRepo.Create fails db m).2.2 = none) :
    (RuleRepo.Create fails db m).2.1 = nextRowid db.rules := by
  unfold RuleRepo.Create at h ⊢
  cases hb : fails .beginTx with
  | some e => rw [hb] at h; simp at h
  | none =>
    rw [hb] at h
    simp only [] at h ⊢
    exact createBody_id fails (Tx.start db) m h

theorem Add_invalid (env : Env) (db : Tables) (actor : String) (r : Rule) (e : GoError)
    (h : validateRule env.ParseCIDR r = some e) :
    RulesService.Add env db actor r = (db, 0, some e) := by
  unfold RulesService.Add
  rw [h]

theorem validPolicy_iff (p : String) :
    validPolicy p = true ↔ ToLower p ∈ ["accept", "drop"] := by
  unfold validPolicy
  simp

theorem orderedInsert_of_forall {α : Type} (r : α → α → Prop) [DecidableRel r] (a : α)
    (l : List α) (h : ∀ x ∈ l, r a x) : List.orderedInsert r a l = a :: l := by
  cases l with
  | nil => rfl
  | cons b l =>
    rw [List.orderedInsert, if_pos (h b (List.mem_cons_self _ _))]

theorem filter_orderedInsert {α : Type} (r : α → α → Prop) [DecidableRel r]
    (htrans : ∀ a b c, r a b → r b c → r a c) (p : α → Bool) (a : α) :
    ∀ s : List α, List.Sorted r s →
      (List.orderedInsert r a s).filter p =
        if p a = true then List.orderedInsert r a (s.filter p) else s.filter p := by
  intro s
  induction s with
  | nil =>
    intro _
    by_cases hp : p a = true <;> simp [hp]
  | cons b s ih =>
    intro hs
    have hb : ∀ x ∈ s, r b x := List.rel_of_sorted_cons hs
    have ih' := ih hs.of_cons
    by_cases hab : r a b
    · rw [List.orderedInsert, if_pos hab]
      by_cases hp : p a = true
      · rw [if_pos hp, List.filter_cons_of_pos hp]
        rw [orderedInsert_of_forall r a ((b :: s).filter p)]
        intro x hx
        have hx' : x ∈ b :: s := (List.mem_filter.mp hx).1
        rcases List.mem_cons.mp hx' with rfl | hx'
        · exact hab
        · exact htrans _ _ _ hab (hb x hx')
      · rw [if_neg hp, List.filter_cons_of_neg hp]
    · rw [List.orderedInsert, if_neg hab]
      by_cases hpb : p b = true
      · rw [List.filter_cons_of_pos hpb, ih', List.filter_cons_of_pos hpb]
        by_cases hp : p a = true
        · rw [if_pos hp, if_pos hp, List.orderedInsert, if_neg hab]
        · rw [if_neg hp, if_neg hp]
      · rw [List.filter_cons_of_neg hpb, ih', List.filter_cons_of_neg hpb]

theorem filter_insertionSort {α : Type} (r : α → α → Prop) [DecidableRel r]
    [IsTotal α r] [IsTrans α r] (p : α → Bool) (l : List α) :
    (List.insertionSort r l).filter p = List.insertionSort r (l.filter p) := by
  induction l with
  | nil => rfl
  | cons a l ih =>
    rw [List.insertionSort, filter_orderedInsert r (fun x y z hxy hyz => IsTrans.trans x y z hxy hyz) p a _
      (List.sorted_insertionSort r l), ih]
    by_cases hp : p a = true
    · rw [if_pos hp, List.filter_cons_of_pos hp, List.insertionSort]
    · rw [if_neg hp, List.filter_cons_of_neg hp]

theorem listLoop_noFault (db : Tables) (rows : List RuleRow) (out : List Rule) :
    RuleRepo.listLoop noFault db rows out =
      (out ++ rows.map (RuleRepo.hydrate noFault db), none) := by
  induction rows generalizing out with
  | nil => simp [RuleRepo.listLoop]
  | cons row rows ih =>
    unfold RuleRepo.listLoop
    simp only [noFault]
    rw [ih]
    simp

theorem List_noFault (db : Tables) (b : Bool) :
    RuleRepo.List noFault db b =
      ((RuleRepo.listQuery db b).map (RuleRepo.hydrate noFault db), none) := by
  unfold RuleRepo.List
  simp only [noFault]
  rw [listLoop_noFault]
  simp

theorem listQuery_delete (db : Tables) (id : Int) (b : Bool) :
    RuleRepo.listQuery { db with rules := db.rules.filter (fun row => row.id ≠ id) } b =
      (RuleRepo.listQuery db b).filter (fun row => row.id ≠ id) := by
  unfold RuleRepo.listQuery
  rw [filter_insertionSort]
  cases b
  · simp
  · simp only [if_true, List.filter_filter]
    congr 2
    funext row
    exact Bool.and_comm _ _

theorem Delete_List (fails : DbOp → Option GoError) (db : Tables) (id : Int) (b : Bool)
    (h : (RuleRepo.Delete fails db id).2 = none) :
    RuleRepo.List noFault (RuleRepo.Delete fails db id).1 b =
      ((RuleRepo.List noFault db b).1.filter (fun r => decide (r.ID ≠ id)), none) := by
  unfold RuleRepo.Delete at h ⊢
  cases hd : fails .deleteRule with
  | some e => rw [hd] at h; simp at h
  | none =>
    simp only []
    rw [List_noFault, List_noFault, listQuery_delete, List.filter_map]
    rfl

theorem renderRule_ne_empty (r : Rule) (h : r.Action ≠ "") : renderRule r ≠ "" := by
  intro he
  by_cases hm : specMatches r = []
  · apply h
    rw [← he]
    unfold renderRule
    rw [renderParts_eq, hm]
    rfl
  · unfold renderRule at he
    rw [renderParts_eq, Join_snoc _ _ _ hm] at he
    have hl := congrArg String.length he
    simp only [String.length_append] at hl
    have h1 : " ".length = 1 := by decide
    have h0 : "".length = 0 := by decide
    omega

theorem renderChainStep_writes (b : String) (r : Rule) (he : r.Enabled = true)
    (h : r.Action ≠ "") : renderChainStep r.Chain b r = b ++ stmtLine r := by
  unfold renderChainStep stmtLine
  have hne := renderRule_ne_empty r h
  simp [he, hne]

theorem renderRule_eq_empty_iff (r : Rule) :
    renderRule r = "" ↔ specMatches r = [] ∧ r.Action = "" := by
  constructor
  · intro he
    by_cases ha : r.Action = ""
    · refine ⟨?_, ha⟩
      by_contra hm
      unfold renderRule at he
      rw [renderParts_eq, Join_snoc _ _ _ hm] at he
      have hl := congrArg String.length he
      simp only [String.length_append] at hl
      have h1 : " ".length = 1 := by decide
      have h0 : "".length = 0 := by decide
      omega
    · exact absurd he (renderRule_ne_empty r ha)
  · rintro ⟨hm, ha⟩
    unfold renderRule
    rw [renderParts_eq, hm, ha]
    rfl

theorem renderChainStep_erase (c b : String) (r : Rule) :
    renderChainStep c b (eraseIdComment r) = renderChainStep c b r := rfl

theorem ruleLines_erase (c : String) (rs : List Rule) :
    ruleLines c (rs.map eraseIdComment) = ruleLines c rs := by
  unfold ruleLines
  rw [List.foldl_map]
  rfl

theorem Render_erase (d d' : Defaults) (rs : List Rule)
    (hi : d.InputPolicy = d'.InputPolicy) (hf : d.ForwardPolicy = d'.ForwardPolicy)
    (ho : d.OutputPolicy = d'.OutputPolicy) :
    Render d rs = Render d' (rs.map eraseIdComment) := by
  rw [Render_eq, Render_eq, ruleLines_erase, ruleLines_erase, ruleLines_erase]
  unfold specScript
  rw [hi, hf, ho]

theorem ruleLines_eq_all (c : String) (rs : List Rule) (h : ∀ r ∈ rs, r.Action ≠ "") :
    ruleLines c rs = allRuleLines c rs := by
  rw [ruleLines_eq]
  unfold allRuleLines
  congr 2
  apply List.filter_congr
  intro r hr
  have hne := renderRule_ne_empty r (h r hr)
  simp [hne]

theorem validateRule_action_ne (P : String → Bool) (r : Rule) (hv : validateRule P r = none) :
    r.Action ≠ "" := by
  have ha := ((validateRule_none_iff P r).mp hv).2.2.1
  simp only [List.mem_cons, List.mem_singleton, List.not_mem_nil, or_false] at ha
  rcases ha with ha | ha <;> rw [ha] <;> decide

theorem foldl_insertInt (t : IntTable) (id : Int) (xs : List Int) (db : Tables) :
    xs.foldl (fun d v => d.insertInt t id v) db = db.addInts t id xs := by
  induction xs generalizing db with
  | nil => cases t <;> simp [Tables.addInts]
  | cons v vs ih =>
    rw [List.foldl_cons, ih]
    cases t <;> simp [Tables.addInts, Tables.insertInt]

theorem foldl_insertStr (t : StrTable) (id : Int) (xs : List String) (db : Tables) :
    xs.foldl (fun d v => d.insertStr t id v) db = db.addStrs t id xs := by
  induction xs generalizing db with
  | nil => cases t <;> simp [Tables.addStrs]
  | cons v vs ih =>
    rw [List.foldl_cons, ih]
    cases t <;> simp [Tables.addStrs, Tables.insertStr]

theorem insertIntsLoop_ok (fails : DbOp → Option GoError) (t : IntTable) (id : Int)
    (xs : List Int) (tx : Tx) (i : Nat)
    (h : (insertIntsLoop fails t id tx xs i).2 = none) :
    (insertIntsLoop fails t id tx xs i).1 = { tx with work := tx.work.addInts t id xs } := by
  rw [← foldl_insertInt]
  induction xs generalizing tx i with
  | nil => rfl
  | cons v vs ih =>
    unfold insertIntsLoop at h ⊢
    cases hf : fails (.execInts t i) with
    | some e => rw [hf] at h; simp at h
    | none =>
      rw [hf] at h
      simp only [] at h ⊢
      rw [ih _ _ h]
      rfl

theorem insertInts_ok (fails : DbOp → Option GoError) (tx : Tx) (t : IntTable) (id : Int)
    (xs : List Int) (h : (insertInts fails tx t id xs).2 = none) :
    (insertInts fails tx t id xs).1 = { tx with work := tx.work.addInts t id xs } := by
  unfold insertInts at h ⊢
  by_cases h0 : xs.length = 0
  · have hx : xs = [] := List.length_eq_zero.mp h0
    subst hx
    cases t <;> simp [Tables.addInts]
  · simp only [h0, if_false] at h ⊢
    cases hf : fails (.prepareInts t) with
    | some e => rw [hf] at h; simp at h
    | none =>
      rw [hf] at h
      exact insertIntsLoop_ok fails t id xs tx 0 h

theorem insertStrsLoop_ok (fails : DbOp → Option GoError) (t : StrTable) (id : Int)
    (xs : List String) (tx : Tx) (i : Nat)
    (h : (insertStrsLoop fails t id tx xs i).2 = none) :
    (insertStrsLoop fails t id tx xs i).1 = { tx with work := tx.work.addStrs t id xs } := by
  rw [← foldl_insertStr]
  induction xs generalizing tx i with
  | nil => rfl
  | cons v vs ih =>
    unfold insertStrsLoop at h ⊢
    cases hf : fails (.execStrs t i) with
    | some e => rw [hf] at h; simp at h
    | none =>
      rw [hf] at h
      simp only [] at h ⊢
      rw [ih _ _ h]
      rfl

theorem insertStrs_ok (fails : DbOp → Option GoError) (tx : Tx) (t : StrTable) (id : Int)
    (xs : List String) (h : (insertStrs fails tx t id xs).2 = none) :
    (insertStrs fails tx t id xs).1 = { tx with work := tx.work.addStrs t id xs } := by
  unfold insertStrs at h ⊢
  by_cases h0 : xs.length = 0
  · have hx : xs = [] := List.length_eq_zero.mp h0
    subst hx
    cases t <;> simp [Tables.addStrs]
  · simp only [h0, if_false] at h ⊢
    cases hf : fails (.prepareStrs t) with
    | some e => rw [hf] at h; simp at h
    | none =>
      rw [hf] at h
      exact insertStrsLoop_ok fails t id xs tx 0 h

theorem createBody_ok (fails : DbOp → Option GoError) (tx : Tx) (m : Rule) :
    (RuleRepo.createBody fails tx m).2.2 = none →
      (RuleRepo.createBody fails tx m).1.base = createdTables tx.work m := by
  unfold RuleRepo.createBody createdTables
  cases h0 : fails .insertRule with
  | some e => exact fun h => absurd h (by simp)
  | none =>
  cases h1 : fails .lastInsertId with
  | some e => exact fun h => absurd h (by simp)
  | none =>
  simp only []
  set id := nextRowid tx.work.rules with hid
  set w1 := tx.work.insertRule id m with hw1
  have k2 := insertInts_ok fails { tx with work := w1 } .rule_port id m.Ports
  rcases h2 : insertInts fails { tx with work := w1 } .rule_port id m.Ports with ⟨tx2, _ | e2⟩
  case some => exact fun h => absurd h (by simp)
  rw [h2] at k2
  have k2' := k2 rfl
  simp only [] at k2'
  subst k2'
  simp only []
  set w2 := w1.addInts .rule_port id m.Ports with hw2
  have k3 := insertStrs_ok fails { tx with work := w2 } .rule_src_cidr id m.SrcCIDRs
  rcases h3 : insertStrs fails { tx with work := w2 } .rule_src_cidr id m.SrcCIDRs
    with ⟨tx3, _ | e3⟩
  case some => exact fun h => absurd h (by simp)
  rw [h3] at k3
  have k3' := k3 rfl
  simp only [] at k3'
  subst k3'
  simp only []
  set w3 := w2.addStrs .rule_src_cidr id m.SrcCIDRs with hw3
  have k4 := insertStrs_ok fails { tx with work := w3 } .rule_dst_cidr id m.DstCIDRs
  rcases h4 : insertStrs fails { tx with work := w3 } .rule_dst_cidr id m.DstCIDRs
    with ⟨tx4, _ | e4⟩
  case some => exact fun h => absurd h (by simp)
  rw [h4] at k4
  have k4' := k4 rfl
  simp only [] at k4'
  subst k4'
  simp only []
  set w4 := w3.addStrs .rule_dst_cidr id m.DstCIDRs with hw4
  have k5 := insertInts_ok fails { tx with work := w4 } .rule_icmp_type id m.ICMPTypes
  rcases h5 : insertInts fails { tx with work := w4 } .rule_icmp_type id m.ICMPTypes
    with ⟨tx5, _ | e5⟩
  case some => exact fun h => absurd h (by simp)
  rw [h5] at k5
  have k5' := k5 rfl
  simp only [] at k5'
  subst k5'
  simp only []
  unfold Tx.Commit
  cases h6 : fails .commit with
  | some e => exact fun h => absurd h (by simp)
  | none => exact fun _ => rfl

theorem Create_ok (fails : DbOp → Option GoError) (db : Tables) (m : Rule)
    (h : (RuleRepo.Create fails db m).2.2 = none) :
    (RuleRepo.Create fails db m).1 = createdTables db m := by
  unfold RuleRepo.Create at h ⊢
  cases hb : fails .beginTx with
  | some e => rw [hb] at h; simp at h
  | none =>
    rw [hb] at h
    simp only [] at h ⊢
    rw [if_neg (not_not.mpr h)]
    exact createBody_ok fails (Tx.start db) m h

theorem createdTables_rules (db : Tables) (m : Rule) :
    (createdTables db m).rules = db.rules ++
      [{ id := nextRowid db.rules, chain := m.Chain, proto := m.Proto, action := m.Action,
         in_if := m.InIf, out_if := m.OutIf, comment := m.Comment,
         enabled := boolToInt m.Enabled }] := rfl

theorem createdTables_rule_port (db : Tables) (m : Rule) :
    (createdTables db m).rule_port =
      db.rule_port ++ m.Ports.map (fun v => (nextRowid db.rules, v)) := rfl

theorem createdTables_rule_src_cidr (db : Tables) (m : Rule) :
    (createdTables db m).rule_src_cidr =
      db.rule_src_cidr ++ m.SrcCIDRs.map (fun v => (nextRowid db.rules, v)) := rfl

theorem createdTables_rule_dst_cidr (db : Tables) (m : Rule) :
    (createdTables db m).rule_dst_cidr =
      db.rule_dst_cidr ++ m.DstCIDRs.map (fun v => (nextRowid db.rules, v)) := rfl

theorem createdTables_rule_icmp_type (db : Tables) (m : Rule) :
    (createdTables db m).rule_icmp_type =
      db.rule_icmp_type ++ m.ICMPTypes.map (fun v => (nextRowid db.rules, v)) := rfl

theorem createdTables_defaults (db : Tables) (m : Rule) :
    (createdTables db m).defaults = db.defaults := rfl

theorem maxId_ge (rows : List RuleRow) (row : RuleRow) (h : row ∈ rows) :
    ∃ m, maxId rows = some m ∧ row.id ≤ m := by
  induction rows with
  | nil => cases h
  | cons r rs ih =>
    unfold maxId
    rcases List.mem_cons.mp h with rfl | h
    · cases hm : maxId rs with
      | none => exact ⟨row.id, rfl, le_refl _⟩
      | some m => exact ⟨max row.id m, rfl, le_max_left _ _⟩
    · obtain ⟨m, hm, hle⟩ := ih h
      rw [hm]
      exact ⟨max r.id m, rfl, le_trans hle (le_max_right _ _)⟩

theorem lt_nextRowid (rows : List RuleRow) (row : RuleRow) (h : row ∈ rows) :
    row.id < nextRowid rows := by
  obtain ⟨m, hm, hle⟩ := maxId_ge rows row h
  unfold nextRowid
  rw [hm]
  simp only []
  omega

theorem maxId_mem (rows : List RuleRow) (m : Int) (h : maxId rows = some m) :
    ∃ row ∈ rows, row.id = m := by
  induction rows generalizing m with
  | nil => cases h
  | cons r rs ih =>
    unfold maxId at h
    cases hm : maxId rs with
    | none =>
      rw [hm] at h
      simp only [Option.some.injEq] at h
      exact ⟨r, List.mem_cons_self _ _, h⟩
    | some k =>
      rw [hm] at h
      simp only [Option.some.injEq] at h
      obtain ⟨row, hrow, hid⟩ := ih k hm
      rcases max_choice r.id k with hc | hc
      · exact ⟨r, List.mem_cons_self _ _, by rw [← h, hc]⟩
      · exact ⟨row, List.mem_cons_of_mem _ hrow, by rw [← h, hc, hid]⟩

theorem nextRowid_pos (rows : List RuleRow) (h : ∀ row ∈ rows, 1 ≤ row.id) :
    1 ≤ nextRowid rows := by
  unfold nextRowid
  cases hm : maxId rows with
  | none => exact le_refl _
  | some m =>
    obtain ⟨row, hrow, hid⟩ := maxId_mem rows m hm
    have := h row hrow
    simp only []
    omega

theorem Delete_tables (fails : DbOp → Option GoError) (db : Tables) (id : Int) :
    (RuleRepo.Delete fails db id).1 = db ∨
      (RuleRepo.Delete fails db id).1 =
        { db with rules := db.rules.filter (fun row => row.id ≠ id) } := by
  unfold RuleRepo.Delete
  cases fails .deleteRule with
  | some e => exact Or.inl rfl
  | none => exact Or.inr rfl

theorem Create_tables (fails : DbOp → Option GoError) (db : Tables) (m : Rule) :
    (RuleRepo.Create fails db m).1 = db ∨
      (RuleRepo.Create fails db m).1 = createdTables db m := by
  cases h : (RuleRepo.Create fails db m).2.2 with
  | none => exact Or.inr (Create_ok fails db m h)
  | some e => exact Or.inl (Create_fail fails db m (by rw [h]; simp)).1

theorem DefaultsSet_rules (fails : DbOp → Option GoError) (db : Tables) (d : Defaults) :
    (DefaultsRepo.Set fails db d).1.rules = db.rules ∧
      (DefaultsRepo.Set fails db d).1.rule_port = db.rule_port ∧
      (DefaultsRepo.Set fails db d).1.rule_src_cidr = db.rule_src_cidr ∧
      (DefaultsRepo.Set fails db d).1.rule_dst_cidr = db.rule_dst_cidr ∧
      (DefaultsRepo.Set fails db d).1.rule_icmp_type = db.rule_icmp_type := by
  unfold DefaultsRepo.Set
  cases fails .setDefaults with
  | some e => exact ⟨rfl, rfl, rfl, rfl, rfl⟩
  | none => exact ⟨rfl, rfl, rfl, rfl, rfl⟩

theorem AuditWrite_rules (fails : DbOp → Option GoError) (db : Tables)
    (actor action object details : String) :
    (AuditRepo.Write fails db actor action object details).1.rules = db.rules ∧
      (AuditRepo.Write fails db actor action object details).1.rule_port = db.rule_port ∧
      (AuditRepo.Write fails db actor action object details).1.rule_src_cidr =
        db.rule_src_cidr ∧
      (AuditRepo.Write fails db actor action object details).1.rule_dst_cidr =
        db.rule_dst_cidr ∧
      (AuditRepo.Write fails db actor action object details).1.rule_icmp_type =
        db.rule_icmp_type ∧
      (AuditRepo.Write fails db actor action object details).1.defaults = db.defaults := by
  unfold AuditRepo.Write
  cases fails .auditWrite with
  | some e => exact ⟨rfl, rfl, rfl, rfl, rfl, rfl⟩
  | none => exact ⟨rfl, rfl, rfl, rfl, rfl, rfl⟩

theorem createdTables_keys (db : Tables) (m : Rule)
    (h : db.keyUnique ∧ db.idsPositive) :
    (createdTables db m).keyUnique ∧ (createdTables db m).idsPositive := by
  obtain ⟨hk, hp⟩ := h
  unfold Tables.keyUnique Tables.idsPositive at *
  rw [createdTables_rules]
  constructor
  · rw [List.map_append, List.nodup_append]
    refine ⟨hk, List.nodup_singleton _, ?_⟩
    intro a ha hb
    simp only [List.map_cons, List.map_nil, List.mem_singleton] at hb
    obtain ⟨row, hrow, rfl⟩ := List.mem_map.mp ha
    have := lt_nextRowid db.rules row hrow
    omega
  · intro row hrow
    rcases List.mem_append.mp hrow with hrow | hrow
    · exact hp row hrow
    · rw [List.mem_singleton.mp hrow]
      exact nextRowid_pos db.rules hp

theorem Reachable_keys (db : Tables) (h : Reachable db) :
    db.keyUnique ∧ db.idsPositive := by
  induction h with
  | fresh =>
    constructor
    · unfold Tables.keyUnique freshTables
      simp
    · intro row hrow
      cases hrow
  | create fails db m _ ih =>
    rcases Create_tables fails db m with h | h
    · rw [h]; exact ih
    · rw [h]; exact createdTables_keys db m ih
  | delete fails db id _ ih =>
    rcases Delete_tables fails db id with h | h
    · rw [h]; exact ih
    · rw [h]
      constructor
      · unfold Tables.keyUnique at *
        exact ih.1.sublist ((List.filter_sublist _).map _)
      · intro row hrow
        exact ih.2 row (List.mem_filter.mp hrow).1
  | setDefaults fails db d _ ih =>
    have hr := (DefaultsSet_rules fails db d).1
    unfold Tables.keyUnique Tables.idsPositive at *
    rw [hr]
    exact ih
  | audit fails db actor action object details _ ih =>
    have hr := (AuditWrite_rules fails db actor action object details).1
    unfold Tables.keyUnique Tables.idsPositive at *
    rw [hr]
    exact ih

theorem listLoop_of_scan_ok (fails : DbOp → Option GoError) (db : Tables)
    (rows : List RuleRow) (out : List Rule)
    (h : ∀ row ∈ rows, fails (.scanRule row.id) = none) :
    RuleRepo.listLoop fails db rows out =
      (out ++ rows.map (RuleRepo.hydrate fails db), none) := by
  induction rows generalizing out with
  | nil => simp [RuleRepo.listLoop]
  | cons row rows ih =>
    unfold RuleRepo.listLoop
    rw [h row (List.mem_cons_self _ _)]
    simp only []
    rw [ih _ (fun r hr => h r (List.mem_cons_of_mem _ hr))]
    simp

theorem listLoop_scan_ok (fails : DbOp → Option GoError) (db : Tables)
    (rows : List RuleRow) (out : List Rule)
    (h : (RuleRepo.listLoop fails db rows out).2 = none) :
    ∀ row ∈ rows, fails (.scanRule row.id) = none := by
  induction rows generalizing out with
  | nil => intro row hrow; cases hrow
  | cons r rows ih =>
    unfold RuleRepo.listLoop at h
    cases hf : fails (.scanRule r.id) with
    | some e => rw [hf] at h; simp at h
    | none =>
      rw [hf] at h
      intro row hrow
      rcases List.mem_cons.mp hrow with rfl | hrow
      · exact hf
      · exact ih _ h row hrow

theorem List_of_ok (fails : DbOp → Option GoError) (db : Tables) (b : Bool)
    (hq : fails .queryRules = none)
    (hs : ∀ row ∈ RuleRepo.listQuery db b, fails (.scanRule row.id) = none) :
    RuleRepo.List fails db b =
      ((RuleRepo.listQuery db b).map (RuleRepo.hydrate fails db), none) := by
  unfold RuleRepo.List
  rw [hq]
  simp only []
  rw [listLoop_of_scan_ok fails db _ [] hs]
  simp

theorem List_ok_inv (fails : DbOp → Option GoError) (db : Tables) (b : Bool)
    (h : (RuleRepo.List fails db b).2 = none) :
    fails .queryRules = none ∧
      ∀ row ∈ RuleRepo.listQuery db b, fails (.scanRule row.id) = none := by
  unfold RuleRepo.List at h
  cases hq : fails .queryRules with
  | some e => rw [hq] at h; simp at h
  | none =>
    rw [hq] at h
    exact ⟨rfl, listLoop_scan_ok fails db _ [] h⟩

theorem listQuery_true (db : Tables) :
    RuleRepo.listQuery db true =
      (RuleRepo.listQuery db false).filter (fun row => decide (row.enabled = 1)) := by
  unfold RuleRepo.listQuery
  rw [filter_insertionSort]
  simp

theorem listQuery_sublist (db : Tables) (b : Bool) :
    List.Sublist (RuleRepo.listQuery db b) (RuleRepo.listQuery db false) := by
  cases b
  · exact List.Sublist.refl _
  · rw [listQuery_true]
    exact List.filter_sublist _

theorem listQuery_strict (db : Tables) (hk : db.keyUnique) (b : Bool) :
    (RuleRepo.listQuery db b).Pairwise (fun a c => a.id < c.id) := by
  apply List.Pairwise.sublist (listQuery_sublist db b)
  have hs : (RuleRepo.listQuery db false).Pairwise (fun a c => a.id ≤ c.id) := by
    unfold RuleRepo.listQuery
    exact List.sorted_insertionSort (fun a c : RuleRow => a.id ≤ c.id) _
  have hn : (RuleRepo.listQuery db false).Pairwise (fun a c => a.id ≠ c.id) := by
    have hperm : List.Perm (RuleRepo.listQuery db false) db.rules := by
      unfold RuleRepo.listQuery
      exact List.perm_insertionSort _ _
    have hnd : ((RuleRepo.listQuery db false).map (fun row => row.id)).Nodup :=
      (hperm.map _).nodup_iff.mpr hk
    exact List.pairwise_map.mp hnd
  exact (hs.and hn).imp (fun h => lt_of_le_of_ne h.1 h.2)

theorem List_true_of_false (fails : DbOp → Option GoError) (db : Tables)
    (h : (RuleRepo.List fails db false).2 = none) :
    RuleRepo.List fails db true =
      ((RuleRepo.List fails db false).1.filter (fun r => r.Enabled), none) := by
  obtain ⟨hq, hs⟩ := List_ok_inv fails db false h
  have hs' : ∀ row ∈ RuleRepo.listQuery db true, fails (.scanRule row.id) = none :=
    fun row hrow => hs row ((listQuery_sublist db true).subset hrow)
  rw [List_of_ok fails db true hq hs', List_of_ok fails db false hq hs, listQuery_true,
    List.filter_map]
  rfl

theorem List_strict (fails : DbOp → Option GoError) (db : Tables) (hk : db.keyUnique)
    (b : Bool) (h : (RuleRepo.List fails db b).2 = none) :
    (RuleRepo.List fails db b).1.Pairwise (fun a c => a.ID < c.ID) := by
  obtain ⟨hq, hs⟩ := List_ok_inv fails db b h
  rw [List_of_ok fails db b hq hs]
  simp only []
  rw [List.pairwise_map]
  exact listQuery_strict db hk b

theorem Create_ok_rules (fails : DbOp → Option GoError) (db : Tables) (m : Rule)
    (h : (RuleRepo.Create fails db m).2.2 = none) :
    (RuleRepo.Create fails db m).1.rules = db.rules ++
      [{ id := (RuleRepo.Create fails db m).2.1, chain := m.Chain, proto := m.Proto,
         action := m.Action, in_if := m.InIf, out_if := m.OutIf, comment := m.Comment,
         enabled := boolToInt m.Enabled }] := by
  rw [Create_ok fails db m h, Create_ok_id fails db m h, createdTables_rules]

theorem Create_twice_lt (fails fails' : DbOp → Option GoError) (db : Tables) (m m' : Rule)
    (h : (RuleRepo.Create fails db m).2.2 = none)
    (h' : (RuleRepo.Create fails' (RuleRepo.Create fails db m).1 m').2.2 = none) :
    (RuleRepo.Create fails db m).2.1 <
      (RuleRepo.Create fails' (RuleRepo.Create fails db m).1 m').2.1 := by
  rw [Create_ok_id fails' _ m' h']
  apply lt_nextRowid _
    { id := (RuleRepo.Create fails db m).2.1, chain := m.Chain, proto := m.Proto,
      action := m.Action, in_if := m.InIf, out_if := m.OutIf, comment := m.Comment,
      enabled := boolToInt m.Enabled }
  rw [Create_ok_rules fails db m h]
  simp

theorem DefaultsService_Set_ok (env : Env) (db : Tables) (d : Defaults)
    (h : (DefaultsService.Set env db d).2 = none) :
    env.fails .setDefaults = none ∧
      (DefaultsService.Set env db d).1 =
        { db with defaults :=
            db.defaults.map (fun row => if row.id = 1 then { row with cols := d } else row) } := by
  unfold DefaultsService.Set at h ⊢
  split at h
  · simp at h
  · rename_i hv
    rw [if_neg hv]
    unfold DefaultsRepo.Set at h ⊢
    cases hf : env.fails .setDefaults with
    | some e => rw [hf] at h; simp at h
    | none => exact ⟨rfl, rfl⟩

theorem Delete_absent (fails : DbOp → Option GoError) (db : Tables) (id : Int)
    (habs : ∀ row ∈ db.rules, row.id ≠ id) (hop : fails .deleteRule = none) :
    RuleRepo.Delete fails db id = (db, none) := by
  unfold RuleRepo.Delete
  rw [hop]
  simp only []
  have hf : db.rules.filter (fun row => decide (row.id ≠ id)) = db.rules := by
    rw [List.filter_eq_self]
    intro row hrow
    simpa using habs row hrow
  rw [hf]

theorem orderedInsert_append_last {α : Type} (r : α → α → Prop) [DecidableRel r] (b a : α)
    (hba : r b a) (s : List α) :
    List.orderedInsert r b (s ++ [a]) = List.orderedInsert r b s ++ [a] := by
  induction s with
  | nil => simp [List.orderedInsert, hba]
  | cons c s ih =>
    by_cases hbc : r b c
    · simp [List.orderedInsert, hbc]
    · simp [List.orderedInsert, hbc, ih]

theorem insertionSort_append_last {α : Type} (r : α → α → Prop) [DecidableRel r] (a : α)
    (l : List α) (h : ∀ x ∈ l, r x a) :
    List.insertionSort r (l ++ [a]) = List.insertionSort r l ++ [a] := by
  induction l with
  | nil => rfl
  | cons b l ih =>
    rw [List.cons_append, List.insertionSort, ih (fun x hx => h x (List.mem_cons_of_mem _ hx)),
      orderedInsert_append_last r b a (h b (List.mem_cons_self _ _)), List.insertionSort]

theorem filter_append_new {β : Type} (old : List (Int × β)) (xs : List β) (id k : Int)
    (hne : k ≠ id) :
    ((old ++ xs.map (fun v => (id, v))).filter (fun row => decide (row.1 = k))).map
        (fun row => row.2) =
      (old.filter (fun row => decide (row.1 = k))).map (fun row => row.2) := by
  rw [List.filter_append]
  have h0 : (xs.map (fun v => (id, v))).filter (fun row => decide (row.1 = k)) = [] := by
    rw [List.filter_eq_nil_iff]
    intro row hrow
    obtain ⟨v, -, rfl⟩ := List.mem_map.mp hrow
    simpa using fun h => hne h.symm
  rw [h0, List.append_nil]

theorem hydrate_created (db : Tables) (m : Rule) (row : RuleRow)
    (hne : row.id ≠ nextRowid db.rules) :
    RuleRepo.hydrate noFault (createdTables db m) row = RuleRepo.hydrate noFault db row := by
  unfold RuleRepo.hydrate selectInts selectStrs
  simp only [noFault, Tables.ints, Tables.strs, createdTables_rule_port,
    createdTables_rule_src_cidr, createdTables_rule_dst_cidr, createdTables_rule_icmp_type,
    filter_append_new _ _ _ _ hne]

theorem listQuery_created (db : Tables) (m : Rule) :
    RuleRepo.listQuery (createdTables db m) false =
      RuleRepo.listQuery db false ++
        [{ id := nextRowid db.rules, chain := m.Chain, proto := m.Proto, action := m.Action,
           in_if := m.InIf, out_if := m.OutIf, comment := m.Comment,
           enabled := boolToInt m.Enabled }] := by
  unfold RuleRepo.listQuery
  simp only [Bool.false_eq_true, if_false, createdTables_rules]
  apply insertionSort_append_last
  intro x hx
  exact le_of_lt (lt_nextRowid db.rules x hx)

theorem List_created (db : Tables) (m : Rule) :
    (RuleRepo.List noFault (createdTables db m) false).1 =
      (RuleRepo.List noFault db false).1 ++
        [RuleRepo.hydrate noFault (createdTables db m)
          { id := nextRowid db.rules, chain := m.Chain, proto := m.Proto, action := m.Action,
            in_if := m.InIf, out_if := m.OutIf, comment := m.Comment,
            enabled := boolToInt m.Enabled }] := by
  rw [List_noFault, List_noFault, listQuery_created]
  simp only [List.map_append, List.map_cons, List.map_nil]
  congr 1
  apply List.map_congr_left
  intro row hrow
  apply hydrate_created
  have hmem : row ∈ db.rules := by
    unfold RuleRepo.listQuery at hrow
    simpa using (List.mem_insertionSort _).mp hrow
  exact ne_of_lt (lt_nextRowid db.rules row hmem)

theorem List_of_same_tables (fails : DbOp → Option GoError) (db db' : Tables) (b : Bool)
    (h1 : db'.rules = db.rules) (h2 : db'.rule_port = db.rule_port)
    (h3 : db'.rule_src_cidr = db.rule_src_cidr) (h4 : db'.rule_dst_cidr = db.rule_dst_cidr)
    (h5 : db'.rule_icmp_type = db.rule_icmp_type) :
    RuleRepo.List fails db' b = RuleRepo.List fails db b := by
  have hh : RuleRepo.hydrate fails db' = RuleRepo.hydrate fails db := by
    funext row
    unfold RuleRepo.hydrate selectInts selectStrs
    simp only [Tables.ints, Tables.strs, h2, h3, h4, h5]
  have hl : ∀ rows out, RuleRepo.listLoop fails db' rows out =
      RuleRepo.listLoop fails db rows out := by
    intro rows
    induction rows with
    | nil => intro out; rfl
    | cons row rows ih =>
      intro out
      unfold RuleRepo.listLoop
      rw [hh]
      cases fails (.scanRule row.id) with
      | some e => rfl
      | none => exact ih _
  unfold RuleRepo.List RuleRepo.listQuery
  rw [h1]
  cases fails .queryRules with
  | some e => rfl
  | none => exact hl _ _

/-! ## Claims -/

/-- C1: `renderRule r` is the single-space join of the clauses of the specification in
their order (inbound interface, outbound interface, protocol, ports, one source clause per
source prefix, one destination clause per destination prefix, ICMP types), followed by the
action; the slice joined is exactly that clause list. For the rule input/tcp/accept with
ports `[22]` the line ends with `tcp dport { 22 } accept`. -/
theorem renderRule_clause_order (r : Rule) :
    renderParts r =
        specInIf r ++ specOutIf r ++ specProto r ++ specPorts r ++ specSaddr r ++
          specDaddr r ++ specIcmp r ++ [r.Action] ∧
      renderRule r =
        Join (specInIf r ++ specOutIf r ++ specProto r ++ specPorts r ++ specSaddr r ++
          specDaddr r ++ specIcmp r ++ [r.Action]) " " ∧
      renderRule sshRule = "ip protocol tcp tcp dport \x7b 22 \x7d accept" ∧
      EndsWith (renderRule sshRule) "tcp dport \x7b 22 \x7d accept" := by
  have h := renderParts_eq r
  unfold specMatches at h
  refine ⟨h, ?_, by decide, by decide⟩
  unfold renderRule
  rw [h]

/-- C2: `Render d rs` is `flush ruleset`, a blank line, `table inet netfence {`, the
three chain blocks in the order input, forward, output, and `}`. The block of chain `c`
opens with `chain c {`, declares `type filter hook c priority 0; policy p;` with the policy
of `c`, has `ct state established,related accept` as its first statement, then the lines the
rule loop writes, and is closed. The output always contains `flush ruleset`, and contains
`policy drop` when one of the three policies is `drop`. -/
theorem Render_script_layout (d : Defaults) (rs : List Rule) :
    Render d rs =
        "flush ruleset\n" ++ "\n" ++ "table inet netfence \x7b\n" ++
        specChainBlock "input" d.InputPolicy (ruleLines "input" rs) ++
        specChainBlock "forward" d.ForwardPolicy (ruleLines "forward" rs) ++
        specChainBlock "output" d.OutputPolicy (ruleLines "output" rs) ++
        "\x7d\n" ∧
      (∀ c p body : String, specChainBlock c p body =
        "  chain " ++ c ++ " \x7b\n" ++
        "    type filter hook " ++ c ++ " priority 0; policy " ++ p ++ ";\n" ++
        "    ct state established,related accept\n" ++
        body ++
        "  \x7d\n\n") ∧
      Contains (Render d rs) "flush ruleset" ∧
      ((d.InputPolicy = "drop" ∨ d.ForwardPolicy = "drop" ∨ d.OutputPolicy = "drop") →
        Contains (Render d rs) "policy drop") := by
  refine ⟨Render_eq d rs, fun _ _ _ => rfl, ?_, ?_⟩
  · rw [Render_eq]
    exact specScript_contains_flush d _ _ _
  · intro h
    rw [Render_eq]
    exact specScript_contains_policy d _ _ _ h

/-- Witness of C2 at the defaults and the rule of the tests: the script contains
`flush ruleset` and `policy drop`. -/
theorem Render_script_layout_witness :
    Contains (Render testDefaults [sshRule]) "flush ruleset" ∧
      Contains (Render testDefaults [sshRule]) "policy drop" :=
  ⟨(Render_script_layout testDefaults [sshRule]).2.2.1,
    (Render_script_layout testDefaults [sshRule]).2.2.2 (Or.inl rfl)⟩

/-- C3, as stated, fails: the enabled input rule with protocol `all`, no match field and
an empty action compiles to the empty statement, and `renderChain` skips an empty statement,
so the input block has no line for it: the script is the script of the empty rule list, not
the script with one statement line per enabled rule of the chain. -/
theorem Render_rule_lines_counterexample :
    blankRule.Enabled = true ∧ blankRule.Chain = "input" ∧ renderRule blankRule = "" ∧
      Render testDefaults [blankRule] = Render testDefaults [] ∧
      Render testDefaults [blankRule] ≠
        specScript testDefaults (allRuleLines "input" [blankRule])
          (allRuleLines "forward" [blankRule]) (allRuleLines "output" [blankRule]) := by
  decide

/-- C3, amended: in `Render d rs` the rule statement lines of the block of each chain `c`
of input, forward, output are exactly the statement lines of the rules of `rs` that are
enabled, have chain `c` and compile to a non-empty statement, one line per such rule, in
the order of `rs`; and `Render d rs` is `Render d` of `rs` with the disabled rules removed. -/
theorem Render_rule_lines (d : Defaults) (rs : List Rule) :
    Render d rs =
        specScript d
          (concatLines ((rs.filter (fun r =>
            decide (r.Enabled = true ∧ r.Chain = "input" ∧ renderRule r ≠ ""))).map stmtLine))
          (concatLines ((rs.filter (fun r =>
            decide (r.Enabled = true ∧ r.Chain = "forward" ∧ renderRule r ≠ ""))).map stmtLine))
          (concatLines ((rs.filter (fun r =>
            decide (r.Enabled = true ∧ r.Chain = "output" ∧ renderRule r ≠ ""))).map stmtLine)) ∧
      Render d rs = Render d (rs.filter (fun r => r.Enabled)) := by
  have key : ∀ c : String, ruleLines c (rs.filter (fun r => r.Enabled)) = ruleLines c rs := by
    intro c
    rw [ruleLines_eq, ruleLines_eq, List.filter_filter]
    congr 3
    funext r
    cases r.Enabled <;> simp
  refine ⟨?_, ?_⟩
  · rw [Render_eq, ruleLines_eq, ruleLines_eq, ruleLines_eq]
  · rw [Render_eq, Render_eq, key, key, key]

/-- C4: `validateRule r` returns no error if and only if the chain is one of input, forward,
output, the protocol is one of all, tcp, udp, icmp, the action is accept or drop, every port
is in `[1, 65535]`, every source prefix and every destination prefix is parsed by
`net.ParseCIDR`, every ICMP type is in `[0, 255]`, and each of `InIf` and `OutIf`, when
present, is non-empty after `strings.TrimSpace`. -/
theorem validateRule_ok_iff (ParseCIDR : String → Bool) (r : Rule) :
    validateRule ParseCIDR r = none ↔
      r.Chain ∈ ["input", "forward", "output"] ∧
      r.Proto ∈ ["all", "tcp", "udp", "icmp"] ∧
      r.Action ∈ ["accept", "drop"] ∧
      (∀ p ∈ r.Ports, 1 ≤ p ∧ p ≤ 65535) ∧
      (∀ c ∈ r.SrcCIDRs, ParseCIDR c = true) ∧
      (∀ c ∈ r.DstCIDRs, ParseCIDR c = true) ∧
      (∀ t ∈ r.ICMPTypes, 0 ≤ t ∧ t ≤ 255) ∧
      (∀ s, r.InIf = some s → TrimSpace s ≠ "") ∧
      (∀ s, r.OutIf = some s → TrimSpace s ≠ "") :=
  validateRule_none_iff ParseCIDR r

/-- C5: the result of `validateRule` is the error `Err f` for the field `f` of the first
violated check in the order chain, proto, action, port, src_cidr, dst_cidr, icmp_type, in_if,
out_if, and no error when no check is violated; every returned error wraps `ErrInvalid` and
has the message `invalid rule: f`. A rule whose chain is none of input, forward, output (such
as `lan`) is rejected with the field `chain` whatever its other fields are, and an accepted
rule stays accepted when its chain is set to `forward`. -/
theorem validateRule_first_violation (ParseCIDR : String → Bool) (r : Rule) :
    validateRule ParseCIDR r = (specFirstViolation ParseCIDR r).map Err ∧
      (∀ e, validateRule ParseCIDR r = some e →
        e.Is ErrInvalid = true ∧
        ∃ f, specFirstViolation ParseCIDR r = some f ∧ e.Error = "invalid rule: " ++ f) ∧
      (r.Chain ∉ ["input", "forward", "output"] →
        validateRule ParseCIDR r = some (Err "chain")) ∧
      validateRule ParseCIDR { r with Chain := "lan" } = some (Err "chain") ∧
      (Err "chain").Error = "invalid rule: chain" ∧
      (validateRule ParseCIDR r = none →
        validateRule ParseCIDR { r with Chain := "forward" } = none) := by
  refine ⟨validateRule_eq ParseCIDR r, ?_, ?_, ?_, by decide, ?_⟩
  · intro e he
    rw [validateRule_eq] at he
    cases hf : specFirstViolation ParseCIDR r with
    | none => rw [hf] at he; cases he
    | some f =>
      rw [hf] at he
      simp only [Option.map_some', Option.some.injEq] at he
      subst he
      exact ⟨Err_Is f, f, rfl, Err_Error f⟩
  · intro h
    rw [validateRule_eq]
    unfold specFirstViolation
    rw [if_pos h]
    rfl
  · rw [validateRule_eq]
    unfold specFirstViolation
    rw [if_pos (show "lan" ∉ ["input", "forward", "output"] by decide)]
    rfl
  · intro h
    rw [validateRule_none_iff] at h ⊢
    exact ⟨show "forward" ∈ ["input", "forward", "output"] by decide, h.2⟩

/-- Witness of C5 at the rule with chain `lan`: it is rejected with `invalid rule: chain`. -/
theorem validateRule_first_violation_witness :
    lanRule.Chain ∉ ["input", "forward", "output"] ∧
      validateRule sampleParseCIDR lanRule = some (Err "chain") :=
  ⟨by decide, (validateRule_first_violation sampleParseCIDR lanRule).2.2.1 (by decide)⟩

/-- C6: for a rule whose port list is empty or whose protocol is neither tcp nor udp, the
clause list of `renderRule` has no port clause (it is the other clauses in their order, then
the action), and `renderRule r` equals `renderRule` of `r` with its port list emptied. -/
theorem renderRule_no_port_clause (r : Rule)
    (h : r.Ports = [] ∨ (r.Proto ≠ "tcp" ∧ r.Proto ≠ "udp")) :
    renderParts r =
        specInIf r ++ specOutIf r ++ specProto r ++ specSaddr r ++ specDaddr r ++
          specIcmp r ++ [r.Action] ∧
      renderRule r = renderRule { r with Ports := [] } := by
  have hp := specPorts_nil r h
  have hp0 := specPorts_nil { r with Ports := [] } (Or.inl rfl)
  constructor
  · rw [renderParts_eq]
    unfold specMatches
    rw [hp, List.append_nil]
  · unfold renderRule
    rw [renderParts_eq, renderParts_eq]
    unfold specMatches
    rw [hp, hp0]
    rfl

/-- Witness of C6 at an icmp rule that stores the port 53. -/
theorem renderRule_no_port_clause_witness :
    (icmpWithPortRule.Ports = [] ∨
        (icmpWithPortRule.Proto ≠ "tcp" ∧ icmpWithPortRule.Proto ≠ "udp")) ∧
      renderParts icmpWithPortRule =
        ["ip protocol icmp", "icmp type \x7b 8 \x7d", "accept"] ∧
      renderRule icmpWithPortRule = renderRule { icmpWithPortRule with Ports := [] } :=
  ⟨by decide, by decide,
    (renderRule_no_port_clause icmpWithPortRule (by decide)).2⟩

/-- C7: for a rule whose protocol is not icmp or whose ICMP-type list is empty, the clause
list of `renderRule` has no ICMP-type clause, and `renderRule r` equals `renderRule` of `r`
with its ICMP-type list emptied; `validateRule` does not reject the stored types: when every
stored ICMP type is in `[0, 255]` its result on `r` is its result on `r` with the ICMP-type
list emptied, and the tcp rule with the ICMP type 8 is accepted. -/
theorem renderRule_drops_icmp_types (ParseCIDR : String → Bool) (r : Rule)
    (h : r.Proto ≠ "icmp" ∨ r.ICMPTypes = []) :
    renderParts r =
        specInIf r ++ specOutIf r ++ specProto r ++ specPorts r ++ specSaddr r ++
          specDaddr r ++ [r.Action] ∧
      renderRule r = renderRule { r with ICMPTypes := [] } ∧
      ((∀ t ∈ r.ICMPTypes, 0 ≤ t ∧ t ≤ 255) →
        validateRule ParseCIDR r = validateRule ParseCIDR { r with ICMPTypes := [] }) ∧
      validateRule ParseCIDR tcpWithIcmpRule = none := by
  have hp := specIcmp_nil r h
  have hp0 := specIcmp_nil { r with ICMPTypes := [] } (Or.inr rfl)
  refine ⟨?_, ?_, ?_, ?_⟩
  · rw [renderParts_eq]
    unfold specMatches
    rw [hp, List.append_nil]
  · unfold renderRule
    rw [renderParts_eq, renderParts_eq]
    unfold specMatches
    rw [hp, hp0]
    rfl
  · intro ht
    rw [validateRule_eq, validateRule_eq]
    unfold specFirstViolation
    have h7 : ¬ ∃ t ∈ r.ICMPTypes, ¬ (0 ≤ t ∧ t ≤ 255) := fun ⟨t, hm, hb⟩ => hb (ht t hm)
    have h7b : ¬ ∃ t ∈ ([] : List Int), ¬ (0 ≤ t ∧ t ≤ 255) := by simp
    simp only [if_neg h7, if_neg h7b]
  · rfl

/-- Witness of C7 at the tcp rule that stores the ICMP type 8. -/
theorem renderRule_drops_icmp_types_witness :
    (tcpWithIcmpRule.Proto ≠ "icmp" ∨ tcpWithIcmpRule.ICMPTypes = []) ∧
      renderRule tcpWithIcmpRule = renderRule { tcpWithIcmpRule with ICMPTypes := [] } ∧
      validateRule sampleParseCIDR tcpWithIcmpRule = none :=
  ⟨by decide,
    (renderRule_drops_icmp_types sampleParseCIDR tcpWithIcmpRule (by decide)).2.1,
    (renderRule_drops_icmp_types sampleParseCIDR tcpWithIcmpRule (by decide)).2.2.2⟩

/-- C8: the clause list of `renderRule` holds, after the interface, protocol and port
clauses, one `ip saddr <prefix>` clause per source prefix in list order, then one
`ip daddr <prefix>` clause per destination prefix in list order, then the ICMP clause and
the action: `n` source clauses and `m` destination clauses for `n` source and `m`
destination prefixes. The rule with the two source prefixes `10.0.0.0/8` and
`192.168.0.0/16` compiles to two source clauses. -/
theorem renderRule_prefix_clauses (r : Rule) :
    renderParts r =
        (specInIf r ++ specOutIf r ++ specProto r ++ specPorts r) ++
          r.SrcCIDRs.map (fun cidr => "ip saddr " ++ cidr) ++
          r.DstCIDRs.map (fun cidr => "ip daddr " ++ cidr) ++
          (specIcmp r ++ [r.Action]) ∧
      (r.SrcCIDRs.map (fun cidr => "ip saddr " ++ cidr)).length = r.SrcCIDRs.length ∧
      (r.DstCIDRs.map (fun cidr => "ip daddr " ++ cidr)).length = r.DstCIDRs.length ∧
      renderParts twoSrcRule =
        ["ip saddr 10.0.0.0/8", "ip saddr 192.168.0.0/16", "ip daddr 10.0.0.0/8", "drop"] ∧
      renderRule twoSrcRule =
        "ip saddr 10.0.0.0/8 ip saddr 192.168.0.0/16 ip daddr 10.0.0.0/8 drop" := by
  refine ⟨?_, List.length_map _ _, List.length_map _ _, by decide, by decide⟩
  rw [renderParts_eq]
  unfold specMatches specSaddr specDaddr
  simp only [List.append_assoc]

/-- C9: the action is always present and last: the clause list of `renderRule` is the match
clauses followed by `r.Action`, so `renderRule r` ends with `r.Action`; it is exactly
`r.Action` when no match clause applies, and otherwise the joined match clauses, a single
space and `r.Action`. -/
theorem renderRule_action_last (r : Rule) :
    renderParts r = specMatches r ++ [r.Action] ∧
      EndsWith (renderRule r) r.Action ∧
      (specMatches r = [] → renderRule r = r.Action) ∧
      (specMatches r ≠ [] → renderRule r = Join (specMatches r) " " ++ " " ++ r.Action) := by
  have hparts := renderParts_eq r
  have hne : specMatches r ≠ [] → renderRule r = Join (specMatches r) " " ++ " " ++ r.Action := by
    intro h
    unfold renderRule
    rw [hparts, Join_snoc _ _ _ h]
  have hnil : specMatches r = [] → renderRule r = r.Action := by
    intro h
    unfold renderRule
    rw [hparts, h]
    rfl
  refine ⟨hparts, ?_, hnil, hne⟩
  by_cases h : specMatches r = []
  · rw [hnil h]
    exact ⟨[], by simp⟩
  · rw [hne h]
    exact endsWith_append _ _

/-- Witness of C9: the rule without match clauses compiles to its action alone, and the
rule of the tests to its match clauses, a space and the action. -/
theorem renderRule_action_last_witness :
    (specMatches blankRule = [] ∧ renderRule blankRule = blankRule.Action) ∧
      (specMatches sshRule ≠ [] ∧
        renderRule sshRule = Join (specMatches sshRule) " " ++ " " ++ sshRule.Action) :=
  ⟨⟨by decide, (renderRule_action_last blankRule).2.2.1 (by decide)⟩,
    ⟨by decide, (renderRule_action_last sshRule).2.2.2 (by decide)⟩⟩

/-- C10: for a rule with protocol `all` the clause list of `renderRule` has neither a
protocol clause nor a port clause, whatever ports are stored: it is the optional interface
clauses, the source and destination prefix clauses and the action, and `renderRule r` is
their single-space join. -/
theorem renderRule_proto_all (r : Rule) (h : r.Proto = "all") :
    renderParts r =
        specInIf r ++ specOutIf r ++ specSaddr r ++ specDaddr r ++ [r.Action] ∧
      renderRule r =
        Join (specInIf r ++ specOutIf r ++ specSaddr r ++ specDaddr r ++ [r.Action]) " " := by
  have hparts : renderParts r =
      specInIf r ++ specOutIf r ++ specSaddr r ++ specDaddr r ++ [r.Action] := by
    rw [renderParts_eq]
    unfold specMatches
    rw [specProto_all r h, specPorts_nil r (Or.inr (by rw [h]; decide)),
      specIcmp_nil r (Or.inl (by rw [h]; decide))]
    simp only [List.append_nil]
  refine ⟨hparts, ?_⟩
  unfold renderRule
  rw [hparts]

/-- Witness of C10 at a rule with protocol `all` that stores the ports 80 and 443. -/
theorem renderRule_proto_all_witness :
    allWithPortsRule.Proto = "all" ∧
      renderParts allWithPortsRule =
        specInIf allWithPortsRule ++ specOutIf allWithPortsRule ++
          specSaddr allWithPortsRule ++ specDaddr allWithPortsRule ++
          [allWithPortsRule.Action] ∧
      renderRule allWithPortsRule =
        "iifname \"eth0\" oifname \"eth1\" ip saddr 10.0.0.0/8 accept" :=
  ⟨rfl, (renderRule_proto_all allWithPortsRule rfl).1, by decide⟩

/-- C11: `TestRenderBasic` and `TestDryRunRender` require the port match in the form
`th dport { 22 }`. On the input of `TestRenderBasic` the script of `Render` has the rule line
`ip protocol tcp tcp dport { 22 } ip saddr 0.0.0.0/0 accept`: it contains `tcp dport { 22 }`
and does not contain `th dport { 22 }`. -/
theorem Render_th_dport_absent :
    Render testDefaults [basicTestRule] =
        specScript testDefaults
          "    ip protocol tcp tcp dport \x7b 22 \x7d ip saddr 0.0.0.0/0 accept\n" "" "" ∧
      Contains (Render testDefaults [basicTestRule]) "tcp dport \x7b 22 \x7d" ∧
      ¬ Contains (Render testDefaults [basicTestRule]) "th dport \x7b 22 \x7d" ∧
      ¬ Contains (Render dryRunDefaults [dryRunRule]) "th dport \x7b 22 \x7d" := by
  refine ⟨by decide, by decide, by decide, by decide⟩

/-- C12: `TestDryRunRender` requires the text `log prefix` in the script for the defaults
with the log prefix `[netfence]`. On the input of that test the script of `Render` does not
contain `log prefix`: it is the script `Render` gives for the same policies with an empty
log prefix. -/
theorem Render_log_prefix_absent :
    dryRunDefaults.LogPrefix = "[netfence]" ∧
      ¬ Contains (Render dryRunDefaults [dryRunRule]) "log prefix" ∧
      Render dryRunDefaults [dryRunRule] = Render testDefaults [dryRunRule] := by
  refine ⟨rfl, by decide, by decide⟩

/-- C13, as stated, fails: `Render` writes the lines of a chain in the order of its input
list. For the list holding the rule with identifier 2 before the rule with identifier 1 the
input block has the line of rule 2 first, which is not the script with the lines in
ascending identifier order. -/
theorem Render_lines_order_counterexample :
    secondRule.ID = 2 ∧ dryRunRule.ID = 1 ∧
      Render testDefaults [secondRule, dryRunRule] =
        specScript testDefaults (stmtLine secondRule ++ stmtLine dryRunRule) "" "" ∧
      Render testDefaults [secondRule, dryRunRule] ≠
        specScript testDefaults (stmtLine dryRunRule ++ stmtLine secondRule) "" "" := by
  refine ⟨rfl, rfl, by decide, by decide⟩

/-- C13, amended: the rule statement lines inside each chain block of `Render d rs` are the
lines of a sublist of `rs`, in the order of `rs`; hence they are in ascending order of the
identifiers whenever `rs` is in ascending order of the identifiers. -/
theorem Render_lines_list_order (d : Defaults) (rs : List Rule) :
    Render d rs =
        specScript d (concatLines ((chainRules "input" rs).map stmtLine))
          (concatLines ((chainRules "forward" rs).map stmtLine))
          (concatLines ((chainRules "output" rs).map stmtLine)) ∧
      (∀ c, List.Sublist (chainRules c rs) rs) ∧
      (rs.Pairwise (fun a b => a.ID ≤ b.ID) →
        ∀ c, (chainRules c rs).Pairwise (fun a b => a.ID ≤ b.ID)) ∧
      (rs.Pairwise (fun a b => a.ID < b.ID) →
        ∀ c, (chainRules c rs).Pairwise (fun a b => a.ID < b.ID)) := by
  refine ⟨Render_eq_chainRules d rs, fun c => List.filter_sublist _, ?_, ?_⟩
  · intro h c
    exact h.sublist (List.filter_sublist _)
  · intro h c
    exact h.sublist (List.filter_sublist _)

/-- Witness of C13 at the list holding rule 1 before rule 2: the lines of the input block
are in ascending identifier order. -/
theorem Render_lines_list_order_witness :
    [dryRunRule, secondRule].Pairwise (fun a b => a.ID < b.ID) ∧
      (chainRules "input" [dryRunRule, secondRule]).Pairwise (fun a b => a.ID < b.ID) :=
  ⟨by decide,
    (Render_lines_list_order testDefaults [dryRunRule, secondRule]).2.2.2 (by decide) "input"⟩

/-- C15: `validateRule` checks no cross-field consistency: for any two protocols `p1`, `p2`
of all, tcp, udp, icmp its result on `r` with protocol `p1` is its result on `r` with
protocol `p2`; the icmp rule that stores the in-range port 53 is accepted. -/
theorem validateRule_no_cross_field (ParseCIDR : String → Bool) (r : Rule) (p1 p2 : String)
    (h1 : p1 ∈ ["all", "tcp", "udp", "icmp"]) (h2 : p2 ∈ ["all", "tcp", "udp", "icmp"]) :
    validateRule ParseCIDR { r with Proto := p1 } =
        validateRule ParseCIDR { r with Proto := p2 } ∧
      validateRule ParseCIDR icmpWithPortRule = none :=
  ⟨validateRule_proto_irrelevant ParseCIDR r p1 p2 h1 h2, rfl⟩

/-- Witness of C15: the rule of the tests gets the same result with protocol icmp as with
protocol tcp, and both are accepted. -/
theorem validateRule_no_cross_field_witness :
    "icmp" ∈ ["all", "tcp", "udp", "icmp"] ∧ "tcp" ∈ ["all", "tcp", "udp", "icmp"] ∧
      validateRule sampleParseCIDR { sshRule with Proto := "icmp" } =
        validateRule sampleParseCIDR { sshRule with Proto := "tcp" } ∧
      validateRule sampleParseCIDR { sshRule with Proto := "icmp" } = none :=
  ⟨by decide, by decide,
    (validateRule_no_cross_field sampleParseCIDR sshRule "icmp" "tcp" (by decide)
      (by decide)).1, by decide⟩

/-- C16, as stated, fails: `validateRule` only requires an interface name to be non-empty
after trimming. The input rule with the inbound interface name `eth0`, line feed, `eth1` is
accepted, its compiled statement holds a line feed, and it puts two lines into the script. -/
theorem renderRule_one_line_counterexample :
    validateRule sampleParseCIDR lineBreakIfRule = none ∧
      renderRule lineBreakIfRule = "iifname \"eth0\neth1\" accept" ∧
      noLineBreak (renderRule lineBreakIfRule) = false ∧
      Render testDefaults [lineBreakIfRule] =
        specScript testDefaults ("    iifname \"eth0\n" ++ "eth1\" accept\n") "" "" := by
  refine ⟨by decide, by decide, by decide, by decide⟩

/-- C16, amended: for every rule accepted by `validateRule` whose interface names, when
present, hold no line-break character, the compiled statement `renderRule r` holds no
line-break character, so the statement line of the rule holds exactly one line feed, its
last character, and the loop of `renderChain` writes exactly that line for the rule when it
is enabled. The library function `net.ParseCIDR` accepts no text with a line break. -/
theorem renderRule_one_line (ParseCIDR : String → Bool) (r : Rule)
    (hP : ∀ c, ParseCIDR c = true → noLineBreak c = true)
    (hv : validateRule ParseCIDR r = none)
    (hin : ∀ s, r.InIf = some s → noLineBreak s = true)
    (hout : ∀ s, r.OutIf = some s → noLineBreak s = true) :
    noLineBreak (renderRule r) = true ∧
      stmtLine r = "    " ++ renderRule r ++ "\n" ∧
      (stmtLine r).data.count '\n' = 1 ∧
      (r.Enabled = true → ∀ b, renderChainStep r.Chain b r = b ++ stmtLine r) := by
  have h := renderRule_noLineBreak ParseCIDR r hP hv hin hout
  have hact : r.Action ≠ "" := by
    have ha := ((validateRule_none_iff ParseCIDR r).mp hv).2.2.1
    simp only [List.mem_cons, List.mem_singleton, List.not_mem_nil, or_false] at ha
    rcases ha with ha | ha <;> rw [ha] <;> decide
  refine ⟨h, rfl, ?_, fun he b => renderChainStep_writes b r he hact⟩
  have hc : (renderRule r).data.count '\n' = 0 := by
    rw [List.count_eq_zero]
    intro hmem
    exact ((noLineBreak_iff _).mp h _ hmem).1 rfl
  unfold stmtLine
  simp only [String.data_append, List.count_append, hc]
  decide

/-- Witness of C16 at the rule of the tests with the inbound interface `eth0`. -/
theorem renderRule_one_line_witness :
    (∀ c, sampleParseCIDR c = true → noLineBreak c = true) ∧
      validateRule sampleParseCIDR { sshRule with InIf := some "eth0" } = none ∧
      noLineBreak (renderRule { sshRule with InIf := some "eth0" }) = true :=
  have hP : ∀ c, sampleParseCIDR c = true → noLineBreak c = true := by
    intro c hc
    unfold sampleParseCIDR at hc
    simp only [Bool.or_eq_true, decide_eq_true_eq] at hc
    rcases hc with rfl | rfl <;> decide
  ⟨hP, by decide,
    (renderRule_one_line sampleParseCIDR { sshRule with InIf := some "eth0" } hP (by decide)
      (by intro s hs; cases hs; decide) (by intro s hs; cases hs)).1⟩

/-- C14: for a rule that `validateRule` rejects with the error `e`, `RulesService.Add`
returns the identifier 0 and `e`, which wraps `ErrInvalid` and names the first violated
field, and the content of the store is unchanged whatever the database would do (the store
is not called); the rule with chain `bad` is rejected with the field `chain`. -/
theorem Add_rejects_invalid (env : Env) (db : Tables) (actor : String) (r : Rule)
    (e : GoError) (h : validateRule env.ParseCIDR r = some e) :
    RulesService.Add env db actor r = (db, 0, some e) ∧
      e.Is ErrInvalid = true ∧
      (∃ f, specFirstViolation env.ParseCIDR r = some f ∧ e = Err f ∧
        e.Error = "invalid rule: " ++ f) ∧
      RulesService.Add env db actor badChainRule = (db, 0, some (Err "chain")) := by
  refine ⟨Add_invalid env db actor r e h, ?_, ?_, ?_⟩
  · rw [validateRule_eq] at h
    cases hf : specFirstViolation env.ParseCIDR r with
    | none => rw [hf] at h; cases h
    | some f =>
      rw [hf] at h
      simp only [Option.map_some', Option.some.injEq] at h
      subst h
      exact Err_Is f
  · rw [validateRule_eq] at h
    cases hf : specFirstViolation env.ParseCIDR r with
    | none => rw [hf] at h; cases h
    | some f =>
      rw [hf] at h
      simp only [Option.map_some', Option.some.injEq] at h
      subst h
      exact ⟨f, rfl, rfl, Err_Error f⟩
  · exact Add_invalid env db actor badChainRule (Err "chain") rfl

/-- Witness of C14 at the rule of `TestAddRuleValidation` on the fresh store. -/
theorem Add_rejects_invalid_witness :
    validateRule sampleEnv.ParseCIDR badChainRule = some (Err "chain") ∧
      RulesService.Add sampleEnv freshTables "tester" badChainRule =
        (freshTables, 0, some (Err "chain")) ∧
      (Err "chain").Is ErrInvalid = true :=
  ⟨by decide,
    (Add_rejects_invalid sampleEnv freshTables "tester" badChainRule (Err "chain")
      (by decide)).1,
    (Add_rejects_invalid sampleEnv freshTables "tester" badChainRule (Err "chain")
      (by decide)).2.1⟩

/-- C17, as stated, fails: `validPolicy` lowers the text before it compares. For the input
policy `DROP`, which is neither `accept` nor `drop` and which the rule validator rejects as
an action, `DefaultsService.Set` returns no error and stores `DROP`. -/
theorem DefaultsService_Set_counterexample :
    upperDefaults.InputPolicy ∉ ["accept", "drop"] ∧
      oneOf upperDefaults.InputPolicy ["accept", "drop"] = false ∧
      validPolicy upperDefaults.InputPolicy = true ∧
      DefaultsService.Set sampleEnv freshTables upperDefaults =
        ({ freshTables with defaults := [{ id := 1, cols := upperDefaults }] }, none) ∧
      (DefaultsService.Set sampleEnv freshTables upperDefaults).1 ≠ freshTables := by
  refine ⟨by decide, by decide, by decide, by decide, by decide⟩

/-- C17, amended: `DefaultsService.Set` returns the error `invalid policy` and leaves the
store unchanged whenever the lower-case form of the input, forward or output policy is not
one of `accept`, `drop`; its policy test accepts exactly the texts whose lower-case form the
rule validator accepts for an action, among them every text the validator accepts. -/
theorem DefaultsService_Set_rejects (env : Env) (db : Tables) (d : Defaults)
    (h : ToLower d.InputPolicy ∉ ["accept", "drop"] ∨
      ToLower d.ForwardPolicy ∉ ["accept", "drop"] ∨
      ToLower d.OutputPolicy ∉ ["accept", "drop"]) :
    DefaultsService.Set env db d = (db, some (.new "invalid policy")) ∧
      (∀ p, validPolicy p = true ↔ oneOf (ToLower p) ["accept", "drop"] = true) ∧
      (∀ p, oneOf p ["accept", "drop"] = true → validPolicy p = true) := by
  refine ⟨?_, ?_, ?_⟩
  · unfold DefaultsService.Set
    rw [if_pos]
    simp only [Bool.or_eq_true, Bool.not_eq_true', ← Bool.not_eq_true, validPolicy_iff]
    rcases h with h | h | h
    · exact Or.inl (Or.inl h)
    · exact Or.inl (Or.inr h)
    · exact Or.inr h
  · intro p
    rw [validPolicy_iff, oneOf_iff]
  · intro p hp
    rw [oneOf_iff] at hp
    simp only [List.mem_cons, List.mem_singleton, List.not_mem_nil, or_false] at hp
    rcases hp with rfl | rfl <;> decide

/-- Witness of C17: the input policy `reject` is refused and the fresh store is unchanged. -/
theorem DefaultsService_Set_rejects_witness :
    ToLower "reject" ∉ ["accept", "drop"] ∧
      DefaultsService.Set sampleEnv freshTables
          { InputPolicy := "reject", ForwardPolicy := "drop", OutputPolicy := "accept",
            LogPrefix := "" } =
        (freshTables, some (.new "invalid policy")) :=
  ⟨by decide,
    (DefaultsService_Set_rejects sampleEnv freshTables
      { InputPolicy := "reject", ForwardPolicy := "drop", OutputPolicy := "accept",
        LogPrefix := "" } (Or.inl (by decide))).1⟩

/-- C18: the round trip fails on a store reached by a create and a delete. The rule of the
tests (port 22) is created in the fresh store with identifier 1 and deleted; its port row
stays in `rule_port`. The rule with the port 80 is then created, again with identifier 1,
and `List(false)` returns it with the ports 22 and 80 instead of its own port 80. -/
theorem Create_List_round_trip_broken :
    RuleRepo.Create noFault freshTables sshRule =
        ({ freshTables with
            rules := [{ id := 1, chain := "input", proto := "tcp", action := "accept",
                        in_if := none, out_if := none, comment := none, enabled := 1 }],
            rule_port := [(1, 22)] }, 1, none) ∧
      RuleRepo.Delete noFault (RuleRepo.Create noFault freshTables sshRule).1 1 =
        ({ freshTables with rule_port := [(1, 22)] }, none) ∧
      (RuleRepo.Create noFault storeAfterDelete webRule).2 = (1, none) ∧
      storeAfterRecreate.rule_port = [(1, 22), (1, 80)] ∧
      RuleRepo.List noFault storeAfterRecreate false =
        ([{ webRule with ID := 1, Ports := [22, 80] }], none) ∧
      webRule.Ports = [80] := by
  refine ⟨by decide, by decide, by decide, by decide, by decide, rfl⟩

/-- C19: `RuleRepo.Create` returns the error of the first of its steps that fails (the
begin, the parent insert, the read of the identifier, a prepare or a single insert of a
port, source prefix, destination prefix or ICMP type, the commit) and no error when none
fails; when it returns an error, the identifier is 0 and the committed content of all
tables is exactly the content before the call; without error the identifier is the one
given to the new row. -/
theorem Create_atomic (fails : DbOp → Option GoError) (db : Tables) (m : Rule) :
    (RuleRepo.Create fails db m).2.2 = (createOps m).findSome? fails ∧
      ((RuleRepo.Create fails db m).2.2 ≠ none →
        (RuleRepo.Create fails db m).1 = db ∧ (RuleRepo.Create fails db m).2.1 = 0) ∧
      ((RuleRepo.Create fails db m).2.2 = none →
        (RuleRepo.Create fails db m).2.1 = nextRowid db.rules) :=
  ⟨Create_err fails db m, Create_fail fails db m, Create_ok_id fails db m⟩

/-- Witness of C19: on the fresh store, with a database on which the insert of the second
port fails, the create of the rule with the ports 22 and 80 returns that error and the
identifier 0, and the store is the fresh store: neither the parent row nor the first port
row is kept. -/
theorem Create_atomic_witness :
    (RuleRepo.Create secondPortFails freshTables fullRule).2.2 =
        some (.new "disk I/O error") ∧
      (RuleRepo.Create secondPortFails freshTables fullRule).1 = freshTables ∧
      (RuleRepo.Create secondPortFails freshTables fullRule).2.1 = 0 :=
  ⟨by decide,
    ((Create_atomic secondPortFails freshTables fullRule).2.1 (by decide)).1,
    ((Create_atomic secondPortFails freshTables fullRule).2.1 (by decide)).2⟩

/-- C20: after `RuleRepo.Delete id` succeeds, the table `rules` is the table before without
the rows with that identifier, the four child tables (and the defaults) are unchanged, so
the child rows of the deleted rule remain; `List`, filtered or not, returns the rules it
returned before without those of identifier `id`, unchanged and in the same order, and no
rule with identifier `id`. -/
theorem Delete_removes_parent_only (fails : DbOp → Option GoError) (db : Tables) (id : Int)
    (h : (RuleRepo.Delete fails db id).2 = none) :
    (RuleRepo.Delete fails db id).1.rules = db.rules.filter (fun row => row.id ≠ id) ∧
      (RuleRepo.Delete fails db id).1.rule_port = db.rule_port ∧
      (RuleRepo.Delete fails db id).1.rule_src_cidr = db.rule_src_cidr ∧
      (RuleRepo.Delete fails db id).1.rule_dst_cidr = db.rule_dst_cidr ∧
      (RuleRepo.Delete fails db id).1.rule_icmp_type = db.rule_icmp_type ∧
      (RuleRepo.Delete fails db id).1.defaults = db.defaults ∧
      (∀ b, RuleRepo.List noFault (RuleRepo.Delete fails db id).1 b =
        ((RuleRepo.List noFault db b).1.filter (fun r => decide (r.ID ≠ id)), none)) ∧
      (∀ b, ∀ r ∈ (RuleRepo.List noFault (RuleRepo.Delete fails db id).1 b).1, r.ID ≠ id) := by
  have hl := fun b => Delete_List fails db id b h
  have hlast : ∀ b, ∀ r ∈ (RuleRepo.List noFault (RuleRepo.Delete fails db id).1 b).1,
      r.ID ≠ id := by
    intro b r hr
    rw [hl b] at hr
    simpa using (List.mem_filter.mp hr).2
  unfold RuleRepo.Delete at h hl hlast ⊢
  cases hd : fails .deleteRule with
  | some e => rw [hd] at h; simp at h
  | none =>
    rw [hd] at hl hlast
    exact ⟨rfl, rfl, rfl, rfl, rfl, rfl, hl, hlast⟩

/-- Witness of C20 on the store with the rules 1 and 2: after the delete of rule 1 the
unfiltered list is rule 2 alone, with its own lists, and the port row of rule 1 is still in
`rule_port`. -/
theorem Delete_removes_parent_only_witness :
    (RuleRepo.Delete noFault storeTwoRules 1).2 = none ∧
      RuleRepo.List noFault (RuleRepo.Delete noFault storeTwoRules 1).1 false =
        ([{ fullRule with ID := 2 }], none) ∧
      (RuleRepo.Delete noFault storeTwoRules 1).1.rule_port = [(1, 22), (2, 22), (2, 80)] :=
  ⟨by decide,
    ((Delete_removes_parent_only noFault storeTwoRules 1 (by decide)).2.2.2.2.2.2.1
      false).trans (by decide),
    ((Delete_removes_parent_only noFault storeTwoRules 1 (by decide)).2.1).trans (by decide)⟩

/-- C25: for a rule whose protocol is none of all, tcp, udp, icmp, `renderRule` (a total
function) emits no protocol clause, no port clause and no ICMP-type clause: its clause list
is the interface clauses, the source and destination clauses and the action, and its output
is the output for the same rule with protocol `all`. -/
theorem renderRule_unknown_proto (r : Rule)
    (h : r.Proto ∉ ["all", "tcp", "udp", "icmp"]) :
    renderParts r =
        specInIf r ++ specOutIf r ++ specSaddr r ++ specDaddr r ++ [r.Action] ∧
      specProto r = [] ∧ specPorts r = [] ∧ specIcmp r = [] ∧
      renderRule r = renderRule { r with Proto := "all" } := by
  simp only [List.mem_cons, List.mem_singleton, List.not_mem_nil, or_false, not_or] at h
  obtain ⟨-, ht, hu, hi⟩ := h
  have hp : specProto r = [] := by
    unfold specProto
    simp [ht, hu, hi]
  have hpo : specPorts r = [] := specPorts_nil r (Or.inr ⟨ht, hu⟩)
  have hic : specIcmp r = [] := specIcmp_nil r (Or.inl hi)
  have hparts : renderParts r =
      specInIf r ++ specOutIf r ++ specSaddr r ++ specDaddr r ++ [r.Action] := by
    rw [renderParts_eq]
    unfold specMatches
    rw [hp, hpo, hic]
    simp only [List.append_nil]
  refine ⟨hparts, hp, hpo, hic, ?_⟩
  have hall : renderParts { r with Proto := "all" } =
      specInIf r ++ specOutIf r ++ specSaddr r ++ specDaddr r ++ [r.Action] := by
    rw [renderParts_eq]
    unfold specMatches
    rw [specProto_all _ rfl,
      specPorts_nil _ (Or.inr ⟨show "all" ≠ "tcp" by decide, show "all" ≠ "udp" by decide⟩),
      specIcmp_nil _ (Or.inl (show "all" ≠ "icmp" by decide))]
    simp only [List.append_nil]
    rfl
  unfold renderRule
  rw [hparts, hall]

/-- Witness of C25 at the rule with protocol `sctp`, the port 22 and the ICMP type 8. -/
theorem renderRule_unknown_proto_witness :
    sctpRule.Proto ∉ ["all", "tcp", "udp", "icmp"] ∧
      renderRule sctpRule = "iifname \"eth0\" ip saddr 10.0.0.0/8 accept" ∧
      renderRule sctpRule = renderRule { sctpRule with Proto := "all" } :=
  ⟨by decide, by decide, (renderRule_unknown_proto sctpRule (by decide)).2.2.2.2⟩

/-- C27: `Render` depends neither on `Defaults.LogPrefix` nor on the identifier or the
comment of a rule: two inputs with the same three policies whose rule lists agree, rule by
rule, on every field but `ID` and `Comment`, give the same text. -/
theorem Render_ignores_id_comment (d d' : Defaults) (rs rs' : List Rule)
    (hi : d.InputPolicy = d'.InputPolicy) (hf : d.ForwardPolicy = d'.ForwardPolicy)
    (ho : d.OutputPolicy = d'.OutputPolicy)
    (hr : rs.map eraseIdComment = rs'.map eraseIdComment) :
    Render d rs = Render d' rs' := by
  rw [Render_erase d d' rs hi hf ho, hr, ← Render_erase d' d' rs' rfl rfl rfl]

/-- Witness of C27: the rule of the tests with identifier 0 and no comment under an empty
log prefix, and with identifier 1 and a comment under the log prefix `[netfence]`. -/
theorem Render_ignores_id_comment_witness :
    [sshRule].map eraseIdComment =
        [{ dryRunRule with Comment := some "ssh" }].map eraseIdComment ∧
      Render testDefaults [sshRule] =
        Render dryRunDefaults [{ dryRunRule with Comment := some "ssh" }] :=
  ⟨by decide,
    Render_ignores_id_comment testDefaults dryRunDefaults [sshRule]
      [{ dryRunRule with Comment := some "ssh" }] rfl rfl rfl (by decide)⟩

/-- C28: `renderRule r` is the empty text exactly when no match clause applies and
`r.Action` is empty. Hence for a rule accepted by `validateRule` it is not empty, the loop of
`renderChain` writes the statement line of the rule when it is enabled, and for a list of
accepted rules every block of `Render` holds one line per enabled rule of its chain. -/
theorem renderRule_empty_only_without_action (ParseCIDR : String → Bool) (r : Rule)
    (rs : List Rule) (d : Defaults) :
    (renderRule r = "" ↔ specMatches r = [] ∧ r.Action = "") ∧
      (validateRule ParseCIDR r = none → renderRule r ≠ "") ∧
      (validateRule ParseCIDR r = none → r.Enabled = true →
        ∀ b, renderChainStep r.Chain b r = b ++ stmtLine r) ∧
      ((∀ x ∈ rs, validateRule ParseCIDR x = none) →
        Render d rs =
          specScript d (allRuleLines "input" rs) (allRuleLines "forward" rs)
            (allRuleLines "output" rs)) := by
  refine ⟨renderRule_eq_empty_iff r, ?_, ?_, ?_⟩
  · intro hv
    exact renderRule_ne_empty r (validateRule_action_ne ParseCIDR r hv)
  · intro hv he b
    exact renderChainStep_writes b r he (validateRule_action_ne ParseCIDR r hv)
  · intro hall
    have ha : ∀ x ∈ rs, x.Action ≠ "" :=
      fun x hx => validateRule_action_ne ParseCIDR x (hall x hx)
    rw [Render_eq, ruleLines_eq_all _ rs ha, ruleLines_eq_all _ rs ha,
      ruleLines_eq_all _ rs ha]

/-- Witness of C28 at the rule of the tests: accepted, not empty, its line is in the input
block. -/
theorem renderRule_empty_only_without_action_witness :
    validateRule sampleParseCIDR sshRule = none ∧
      renderRule sshRule ≠ "" ∧
      Render testDefaults [sshRule] =
        specScript testDefaults (allRuleLines "input" [sshRule])
          (allRuleLines "forward" [sshRule]) (allRuleLines "output" [sshRule]) :=
  ⟨by decide,
    (renderRule_empty_only_without_action sampleParseCIDR sshRule [sshRule]
      testDefaults).2.1 (by decide),
    (renderRule_empty_only_without_action sampleParseCIDR sshRule [sshRule]
      testDefaults).2.2.2 (by intro x hx; rw [List.mem_singleton.mp hx]; decide)⟩

/-- C21: on a store whose table `rules` has distinct identifiers (its primary key), a
`RuleRepo.List` that returns no error returns the rules in strictly ascending identifier
order, filtered or not; and when `List(false)` returns no error, `List(true)` returns no
error and exactly the rules of `List(false)` with `Enabled = true`, in the same order. -/
theorem List_ascending_and_filtered (fails : DbOp → Option GoError) (db : Tables)
    (hk : db.keyUnique) :
    (∀ b, (RuleRepo.List fails db b).2 = none →
        (RuleRepo.List fails db b).1.Pairwise (fun a c => a.ID < c.ID)) ∧
      ((RuleRepo.List fails db false).2 = none →
        RuleRepo.List fails db true =
          ((RuleRepo.List fails db false).1.filter (fun r => r.Enabled), none)) ∧
      (RuleRepo.List noFault db false).2 = none :=
  ⟨fun b h => List_strict fails db hk b h, List_true_of_false fails db,
    by rw [List_noFault]⟩

/-- Witness of C21 on the store with the rules 1 and 2, which is reachable and so has
distinct identifiers. -/
theorem List_ascending_and_filtered_witness :
    storeTwoRules.keyUnique ∧
      (RuleRepo.List noFault storeTwoRules false).2 = none ∧
      (RuleRepo.List noFault storeTwoRules false).1.Pairwise (fun a c => a.ID < c.ID) ∧
      (RuleRepo.List noFault storeTwoRules false).1.map (fun r => r.ID) = [1, 2] :=
  have hk : storeTwoRules.keyUnique :=
    (Reachable_keys storeTwoRules
      (Reachable.create noFault _ fullRule
        (Reachable.create noFault _ sshRule Reachable.fresh))).1
  ⟨hk, by decide,
    (List_ascending_and_filtered noFault storeTwoRules hk).1 false (by decide), by decide⟩

/-- C22, as stated, fails: the rule of the tests gets the identifier 1 in the fresh store;
after it is deleted, the next create gets the identifier 1 again, which is not greater than
the identifier returned before. -/
theorem Create_id_reused_counterexample :
    (RuleRepo.Create noFault freshTables sshRule).2 = (1, none) ∧
      (RuleRepo.Delete noFault (RuleRepo.Create noFault freshTables sshRule).1 1).2 = none ∧
      (RuleRepo.Create noFault storeAfterDelete webRule).2 = (1, none) ∧
      ¬ ((RuleRepo.Create noFault freshTables sshRule).2.1 <
          (RuleRepo.Create noFault storeAfterDelete webRule).2.1) := by
  refine ⟨by decide, by decide, by decide, by decide⟩

/-- C22, amended: on every store reached by creates and deletes, a successful
`RuleRepo.Create` returns the largest stored identifier plus one (1 on an empty table): the
identifier is at least 1, strictly greater than the identifier of every rule stored at that
moment, and it is the identifier of the new row; a create that directly follows a
successful create returns a strictly greater identifier. -/
theorem Create_id_above_stored (fails : DbOp → Option GoError) (db : Tables) (m : Rule)
    (hr : Reachable db) (h : (RuleRepo.Create fails db m).2.2 = none) :
    (RuleRepo.Create fails db m).2.1 = nextRowid db.rules ∧
      1 ≤ (RuleRepo.Create fails db m).2.1 ∧
      (∀ row ∈ db.rules, row.id < (RuleRepo.Create fails db m).2.1) ∧
      (RuleRepo.Create fails db m).1.rules = db.rules ++
        [{ id := (RuleRepo.Create fails db m).2.1, chain := m.Chain, proto := m.Proto,
           action := m.Action, in_if := m.InIf, out_if := m.OutIf, comment := m.Comment,
           enabled := boolToInt m.Enabled }] ∧
      (∀ fails' m', (RuleRepo.Create fails' (RuleRepo.Create fails db m).1 m').2.2 = none →
        (RuleRepo.Create fails db m).2.1 <
          (RuleRepo.Create fails' (RuleRepo.Create fails db m).1 m').2.1) := by
  have hid := Create_ok_id fails db m h
  refine ⟨hid, ?_, ?_, Create_ok_rules fails db m h,
    fun fails' m' h' => Create_twice_lt fails fails' db m m' h h'⟩
  · rw [hid]
    exact nextRowid_pos db.rules (Reachable_keys db hr).2
  · intro row hrow
    rw [hid]
    exact lt_nextRowid db.rules row hrow

/-- Witness of C22 on the fresh store: the first create returns 1, the create after it 2. -/
theorem Create_id_above_stored_witness :
    Reachable freshTables ∧
      (RuleRepo.Create noFault freshTables sshRule).2.2 = none ∧
      (RuleRepo.Create noFault freshTables sshRule).2.1 = 1 ∧
      (RuleRepo.Create noFault freshTables sshRule).2.1 <
        (RuleRepo.Create noFault (RuleRepo.Create noFault freshTables sshRule).1
          fullRule).2.1 :=
  ⟨Reachable.fresh, by decide, by decide,
    (Create_id_above_stored noFault freshTables sshRule Reachable.fresh (by decide)).2.2.2.2
      noFault fullRule (by decide)⟩

/-- C23: on a store whose table `defaults` holds the single row with `id = 1`, after a
`DefaultsService.Set d` that returns no error the table holds the single row with `id = 1`
and the four fields of `d`, a `Get` whose query does not fail returns exactly `d`, and the
table `rules` and the child tables are unchanged. -/
theorem Defaults_set_then_get (env : Env) (db : Tables) (d c : Defaults)
    (hrow : db.defaults = [{ id := 1, cols := c }])
    (hset : (DefaultsService.Set env db d).2 = none) :
    (DefaultsService.Set env db d).1.defaults = [{ id := 1, cols := d }] ∧
      (∀ fails', fails' .getDefaults = none →
        DefaultsRepo.Get fails' (DefaultsService.Set env db d).1 = (d, none)) ∧
      (DefaultsService.Set env db d).1.rules = db.rules ∧
      (DefaultsService.Set env db d).1.rule_port = db.rule_port ∧
      (DefaultsService.Set env db d).1.rule_src_cidr = db.rule_src_cidr ∧
      (DefaultsService.Set env db d).1.rule_dst_cidr = db.rule_dst_cidr ∧
      (DefaultsService.Set env db d).1.rule_icmp_type = db.rule_icmp_type := by
  obtain ⟨-, heq⟩ := DefaultsService_Set_ok env db d hset
  rw [heq]
  have hd : List.map (fun row : DefaultsRow => if row.id = 1 then { row with cols := d } else row)
      db.defaults = [{ id := 1, cols := d }] := by
    rw [hrow]
    rfl
  refine ⟨hd, ?_, rfl, rfl, rfl, rfl, rfl⟩
  intro fails' hg
  unfold DefaultsRepo.Get
  rw [hg]
  simp only []
  rw [hd]
  rfl

/-- Witness of C23 on the fresh store with the defaults accept, accept, drop and the log
prefix `[nf]`. -/
theorem Defaults_set_then_get_witness :
    freshTables.defaults = [{ id := 1, cols := testDefaults }] ∧
      (DefaultsService.Set sampleEnv freshTables
        { InputPolicy := "accept", ForwardPolicy := "accept", OutputPolicy := "drop",
          LogPrefix := "[nf]" }).2 = none ∧
      DefaultsRepo.Get noFault (DefaultsService.Set sampleEnv freshTables
        { InputPolicy := "accept", ForwardPolicy := "accept", OutputPolicy := "drop",
          LogPrefix := "[nf]" }).1 =
        ({ InputPolicy := "accept", ForwardPolicy := "accept", OutputPolicy := "drop",
           LogPrefix := "[nf]" }, none) :=
  ⟨rfl, by decide,
    (Defaults_set_then_get sampleEnv freshTables
      { InputPolicy := "accept", ForwardPolicy := "accept", OutputPolicy := "drop",
        LogPrefix := "[nf]" } testDefaults rfl (by decide)).2.1 noFault rfl⟩

/-- C30: when no row of `rules` has the identifier `id` and the delete statement meets no
database fault, `RuleRepo.Delete id` returns no error and the same store, and
`RulesService.Delete id` returns no error and leaves the table `rules`, the four child
tables and the defaults unchanged (it only writes its audit row). -/
theorem Delete_absent_id (env : Env) (db : Tables) (actor : String) (id : Int)
    (habs : ∀ row ∈ db.rules, row.id ≠ id) (hop : env.fails .deleteRule = none) :
    RuleRepo.Delete env.fails db id = (db, none) ∧
      (RulesService.Delete env db actor id).2 = none ∧
      (RulesService.Delete env db actor id).1.rules = db.rules ∧
      (RulesService.Delete env db actor id).1.rule_port = db.rule_port ∧
      (RulesService.Delete env db actor id).1.rule_src_cidr = db.rule_src_cidr ∧
      (RulesService.Delete env db actor id).1.rule_dst_cidr = db.rule_dst_cidr ∧
      (RulesService.Delete env db actor id).1.rule_icmp_type = db.rule_icmp_type ∧
      (RulesService.Delete env db actor id).1.defaults = db.defaults := by
  have hd := Delete_absent env.fails db id habs hop
  refine ⟨hd, ?_⟩
  have hs : RulesService.Delete env db actor id =
      ((AuditService.Log env db actor "del_rule" ("rule:" ++ fmtD id) none).1, none) := by
    unfold RulesService.Delete
    rw [hd]
    rfl
  rw [hs]
  have ha := AuditWrite_rules env.fails db actor "del_rule" ("rule:" ++ fmtD id) "\x7b\x7d"
  exact ⟨rfl, ha.1, ha.2.1, ha.2.2.1, ha.2.2.2.1, ha.2.2.2.2.1, ha.2.2.2.2.2⟩

/-- Witness of C30: the delete of the identifier 9 on the store with the rules 1 and 2. -/
theorem Delete_absent_id_witness :
    (∀ row ∈ storeTwoRules.rules, row.id ≠ 9) ∧
      RuleRepo.Delete sampleEnv.fails storeTwoRules 9 = (storeTwoRules, none) ∧
      (RulesService.Delete sampleEnv storeTwoRules "root" 9).2 = none :=
  ⟨by decide,
    (Delete_absent_id sampleEnv storeTwoRules "root" 9 (by decide) rfl).1,
    (Delete_absent_id sampleEnv storeTwoRules "root" 9 (by decide) rfl).2.1⟩

/-- C29: after a successful `RuleRepo.Create`, `List(false)` returns the rules it returned
before, unchanged and in the same order, followed by one rule, which has the new
identifier; the defaults table is unchanged, so `DefaultsRepo.Get` returns what it returned
before. Likewise `DefaultsRepo.Set` changes no rule: `List` returns the same result after
it, filtered or not. -/
theorem Create_changes_only_new_rule (fails : DbOp → Option GoError) (db : Tables) (m : Rule)
    (h : (RuleRepo.Create fails db m).2.2 = none) :
    (∃ r, r.ID = (RuleRepo.Create fails db m).2.1 ∧
        (RuleRepo.List noFault (RuleRepo.Create fails db m).1 false).1 =
          (RuleRepo.List noFault db false).1 ++ [r]) ∧
      (RuleRepo.Create fails db m).1.defaults = db.defaults ∧
      (∀ fails', DefaultsRepo.Get fails' (RuleRepo.Create fails db m).1 =
        DefaultsRepo.Get fails' db) ∧
      (∀ fails' fails'' d b,
        RuleRepo.List fails'' (DefaultsRepo.Set fails' db d).1 b = RuleRepo.List fails'' db b) := by
  have hdb := Create_ok fails db m h
  have hid := Create_ok_id fails db m h
  refine ⟨?_, ?_, ?_, ?_⟩
  · rw [hdb, hid]
    exact ⟨_, rfl, List_created db m⟩
  · rw [hdb]
    rfl
  · intro fails'
    rw [hdb]
    rfl
  · intro fails' fails'' d b
    have hs := DefaultsSet_rules fails' db d
    exact List_of_same_tables fails'' db _ b hs.1 hs.2.1 hs.2.2.1 hs.2.2.2.1 hs.2.2.2.2

/-- Witness of C29: the create of the full rule in the store holding the rule of the tests
keeps that rule first in the list and adds the full rule with the identifier 2. -/
theorem Create_changes_only_new_rule_witness :
    (RuleRepo.Create noFault (RuleRepo.Create noFault freshTables sshRule).1 fullRule).2.2 =
        none ∧
      (RuleRepo.List noFault (RuleRepo.Create noFault freshTables sshRule).1 false).1 =
        [{ sshRule with ID := 1 }] ∧
      (RuleRepo.List noFault storeTwoRules false).1 =
        [{ sshRule with ID := 1 }, { fullRule with ID := 2 }] ∧
      storeTwoRules.defaults = freshTables.defaults :=
  ⟨by decide, by decide, by decide,
    (Create_changes_only_new_rule noFault (RuleRepo.Create noFault freshTables sshRule).1
      fullRule (by decide)).2.1⟩

/-- C26: the import validates neither the policies nor the rules of the document. On the
store with the rules 1 and 2, the import of the document with the input policy `foo` and no
rule returns no error, deletes the rules and stores the policy `foo`, which
`DefaultsService.Set` refuses; the import of the document holding the rule with the chain
`lan` hands that rule to `RuleRepo.Create` unvalidated: the error it returns is the lock
error of the database, not a validation error. -/
theorem import_stores_unvalidated_policy :
    validPolicy fooDefaults.InputPolicy = false ∧
      DefaultsService.Set sampleEnv storeTwoRules fooDefaults =
        (storeTwoRules, some (.new "invalid policy")) ∧
      (importSnapshot sampleEnv storeTwoRules "root" fooSnapshot).2 = none ∧
      (importSnapshot sampleEnv storeTwoRules "root" fooSnapshot).1.defaults =
        [{ id := 1, cols := fooDefaults }] ∧
      (importSnapshot sampleEnv storeTwoRules "root" fooSnapshot).1.rules = [] ∧
      DefaultsRepo.Get noFault (importSnapshot sampleEnv storeTwoRules "root" fooSnapshot).1 =
        (fooDefaults, none) ∧
      validateRule sampleEnv.ParseCIDR lanRule = some (Err "chain") ∧
      importSnapshot sampleEnv storeTwoRules "root" lanSnapshot =
        (storeTwoRules, some ErrLocked) ∧
      ErrLocked.Is ErrInvalid = false := by
  refine ⟨by decide, by decide, by decide, by decide, by decide, by decide, by decide,
    by decide, by decide⟩

end Netfence
